import Mathlib

/-!
Shallow embedding of `src/server.js` (a WebSocket chat-room relay server).

Modelling conventions:
* A live connection (`ws`) is identified by a `ConnId` (a natural number); the
  per-connection mutable fields `ws.username`, `ws.rooms` and the transport
  readiness (`readyState === OPEN`) form a `Conn` record.  The global mutable
  maps `rooms` (`Map<roomName, Set<WebSocket>>`) and `typingUsers`
  (`{ roomName: Set<username> }`) are insertion-ordered association lists whose
  values are insertion-ordered duplicate-free lists (JS `Map`/`Set` iteration
  order is insertion order).
* JSON field values reachable by the handlers are modelled by `JValue`
  (strings, integer numbers, booleans, null); an absent field is `none`.
  Nested objects/arrays inside a field are not modelled: the handlers only
  use `typeof v === 'string'` checks, string values, and truthiness, so any
  non-string, non-primitive field behaves like any other non-string value.
* Sends are pure outputs: every operation returns the next state together
  with the ordered list of `(recipient, event)` deliveries it performed.
* `Date.now()` is passed in as an explicit integer `now` parameter.
-/

namespace Chat2

/-- Connection identifier standing for one `ws` object. -/
abbrev ConnId := Nat

/-- JS values that can appear in a decoded message field. -/
inductive JValue
  | str (s : String)
  | num (n : Int)
  | bool (b : Bool)
  | null
deriving DecidableEq

/-- JS truthiness of a `JValue` (empty string, 0, false and null are falsy). -/
def JValue.truthy : JValue → Bool
  | JValue.str s => !(s == (""))
  | JValue.num n => !(n == 0)
  | JValue.bool b => b
  | JValue.null => false

/-- JS truthiness of a possibly-absent field (`undefined` is falsy). -/
def jtruthy : Option JValue → Bool
  | none => false
  | some v => v.truthy

/-- The JS expression `v || dflt` on a possibly-absent field. -/
def jsOr (v : Option JValue) (dflt : JValue) : JValue :=
  match v with
  | some x => if x.truthy then x else dflt
  | none => dflt

/-- The string a field value converts to when used as a property key or
interpolated into a template literal (`undefined` for an absent field). -/
def propKey : Option JValue → String
  | none => ("undefined")
  | some (JValue.str s) => s
  | some (JValue.num n) => toString n
  | some (JValue.bool b) => if b then ("true") else ("false")
  | some JValue.null => ("null")

/-- The fields of a decoded inbound message object that the server reads.
Fields the wire object does not carry are `none`. -/
structure Msg where
  type : Option JValue := none
  room : Option JValue := none
  sender : Option JValue := none
  content : Option JValue := none
  target : Option JValue := none
  emoji : Option JValue := none
  timestamp : Option JValue := none
  reply : Option JValue := none
  typing : Option JValue := none
deriving DecidableEq

/-- Result of `parseJSON` on an inbound frame: a parse failure (the `catch`
branch returns `null`), a decoded JSON primitive, or a decoded object. -/
inductive Inbound
  | malformed
  | prim (v : JValue)
  | obj (m : Msg)
deriving DecidableEq

/-- Per-connection state: `ws.username`, `ws.rooms`, and whether
`ws.readyState === WebSocket.OPEN`. -/
structure Conn where
  username : Option String
  crooms : List String
  isOpen : Bool
deriving DecidableEq

/-- Outbound events produced by the server (the JSON objects it sends). -/
inductive Event
  | error (message : String)
  | system (content : String)
  | user_joined (room : String) (sender : Option String)
  | user_left (room : String) (sender : Option String)
  | presence (room : String) (users : List String)
  | typing (room : String) (typingUsers : List String)
  | message (room : String) (sender : Option String) (content : String)
      (timestamp : JValue) (reply : JValue)
  | reaction (room : String) (sender : Option String) (target : String)
      (emoji : String) (timestamp : JValue)
deriving DecidableEq

/-- The whole server state: all connections plus the two global maps. -/
structure State where
  conns : ConnId → Conn
  rooms : List (String × List ConnId)
  typingUsers : List (String × List String)

/-- Look up a key in an association list (first match, like `Map.get`). -/
def alookup {β : Type} : List (String × β) → String → Option β
  | [], _ => none
  | (k', v) :: t, k => if k' = k then some v else alookup t k

/-- `Map.set`: replace the value at an existing key in place, else append. -/
def aset {β : Type} : List (String × β) → String → β → List (String × β)
  | [], k, v => [(k, v)]
  | (k', v') :: t, k, v =>
    if k' = k then (k', v) :: t else (k', v') :: aset t k v

/-- `Map.delete` / `delete obj[k]`: drop every entry with the given key. -/
def adel {β : Type} (l : List (String × β)) (k : String) : List (String × β) :=
  l.filter (fun p => p.1 ≠ k)

/-- `Set.add`: append the element unless already present. -/
def sadd {α : Type} [DecidableEq α] (l : List α) (x : α) : List α :=
  if x ∈ l then l else l ++ [x]

/-- Member set of a room (`rooms.get(room)`, empty if the room is absent). -/
def roomMembers (st : State) (room : String) : List ConnId :=
  (alookup st.rooms room).getD []

/-- Typing set of a room (`typingUsers[room]`, empty if absent). -/
def typingOf (st : State) (room : String) : List String :=
  (alookup st.typingUsers room).getD []

/-- Apply a function to one connection's record. -/
def updConn (st : State) (c : ConnId) (f : Conn → Conn) : State :=
  { st with conns := fun c' => if c' = c then f (st.conns c') else st.conns c' }

/-- `send(ws, data)`: deliver to a single client only if its socket is open. -/
def send1 (st : State) (c : ConnId) (e : Event) : List (ConnId × Event) :=
  if (st.conns c).isOpen then [(c, e)] else []

/-- `broadcastToRoom(room, payload, excludeWs)`: deliver to every open member
of the room except the excluded connection; no-op if the room is absent. -/
def broadcastToRoom (st : State) (room : String) (payload : Event)
    (excl : Option ConnId) : List (ConnId × Event) :=
  match alookup st.rooms room with
  | none => []
  | some members =>
    (members.filter (fun cl => (st.conns cl).isOpen && !(some cl == excl))).map
      (fun cl => (cl, payload))

/-- The presence snapshot: member usernames with falsy ones filtered out
(`[...rooms.get(room)].map(c => c.username).filter(Boolean)`). -/
def presenceUsers (st : State) (room : String) : List String :=
  (roomMembers st room).filterMap (fun cl =>
    match (st.conns cl).username with
    | some u => if u = ("") then none else some u
    | none => none)

/-- `broadcastPresence(room)`: broadcast the presence snapshot to the whole
room; no-op if the room is absent. -/
def broadcastPresence (st : State) (room : String) : List (ConnId × Event) :=
  match alookup st.rooms room with
  | none => []
  | some _ =>
    broadcastToRoom st room (Event.presence room (presenceUsers st room)) none

/-- State change of `joinRoom`: create the member set if absent, add the
connection, and record the membership on the connection. -/
def joinSt (st : State) (c : ConnId) (room : String) : State :=
  let st1 := { st with rooms := aset st.rooms room (sadd (roomMembers st room) c) }
  updConn st1 c (fun cn => { cn with crooms := sadd cn.crooms room })

/-- `joinRoom(ws, room)`: mutate, notify others, confirm, broadcast presence. -/
def joinRoom (st : State) (c : ConnId) (room : String) :
    State × List (ConnId × Event) :=
  let st1 := joinSt st c room
  (st1,
    broadcastToRoom st1 room (Event.user_joined room ((st1.conns c).username)) (some c)
      ++ send1 st1 c (Event.system ((("Joined room: ")) ++ room))
      ++ broadcastPresence st1 room)

/-- `typingUsers[room].delete(ws.username)` — a `null` username is not a
member of a set of strings, so deleting it is a no-op. -/
def eraseUser (ts : List String) (u : Option String) : List String :=
  match u with
  | some name => ts.erase name
  | none => ts

/-- State change of the directory part of `leaveRoom`: remove the connection
from the member set (deleting the room when it empties) and remove the room
from the connection's membership record. -/
def leaveDirSt (st : State) (c : ConnId) (room : String) : State :=
  let st1 :=
    match alookup st.rooms room with
    | none => st
    | some mem =>
      let mem' := mem.erase c
      if mem' = [] then { st with rooms := adel st.rooms room }
      else { st with rooms := aset st.rooms room mem' }
  updConn st1 c (fun cn => { cn with crooms := cn.crooms.erase room })

/-- `leaveRoom(ws, room)`: directory removal, typing-set cleanup (broadcast
only when the set stays non-empty, silent delete when it empties), `user_left`
to the remaining members, confirmation to the leaver, presence refresh. -/
def leaveRoom (st : State) (c : ConnId) (room : String) :
    State × List (ConnId × Event) :=
  let uname := (st.conns c).username
  let st2 := leaveDirSt st c room
  let step3 : State × List (ConnId × Event) :=
    match alookup st2.typingUsers room with
    | none => (st2, [])
    | some ts =>
      let ts' := eraseUser ts uname
      if ts' = [] then ({ st2 with typingUsers := adel st2.typingUsers room }, [])
      else
        ({ st2 with typingUsers := aset st2.typingUsers room ts' },
         broadcastToRoom st2 room (Event.typing room ts') none)
  let st3 := step3.1
  (st3,
    step3.2
      ++ broadcastToRoom st3 room (Event.user_left room uname) (some c)
      ++ send1 st3 c (Event.system ((("Left room: ")) ++ room))
      ++ broadcastPresence st3 room)

/-- Whether a field passes `requireFields`' test: it must be a string whose
trim is truthy (`typeof data[f] === 'string' && data[f].trim()`); a trimmed
string is truthy exactly when some character is not whitespace. -/
def fieldValid : Option JValue → Bool
  | some (JValue.str s) => !(s.data.all (fun ch => ch.isWhitespace))
  | _ => false

/-- The field names `requireFields` reports as missing or invalid. -/
def missingOfPairs (pairs : List (String × Option JValue)) : List String :=
  (pairs.filter (fun p => !fieldValid p.2)).map Prod.fst

/-- `requireFields(ws, data, ...fields)`: `none` when all fields are valid,
otherwise `some` of the single error delivery it performs. -/
def requireFields (st : State) (c : ConnId)
    (pairs : List (String × Option JValue)) : Option (List (ConnId × Event)) :=
  let missing := missingOfPairs pairs
  if missing = [] then none
  else some (send1 st c (Event.error
    ((("Missing or invalid fields: ")) ++ String.intercalate ((", ")) missing)))

/-- The string content of a field known to be a string (raw, untrimmed). -/
def strOf : Option JValue → String
  | some (JValue.str s) => s
  | _ => ("")

/-- The six keys of the `messageHandlers` dispatch object. -/
inductive Handler
  | join
  | leave
  | message
  | reaction
  | presence_request
  | typing
deriving DecidableEq

/-- The required-field list each handler passes to `requireFields`. -/
def requiredPairs : Handler → Msg → List (String × Option JValue)
  | Handler.join, m => [((("room")), m.room), ((("sender")), m.sender)]
  | Handler.leave, m => [((("room")), m.room)]
  | Handler.message, m => [((("room")), m.room), ((("content")), m.content)]
  | Handler.reaction, m =>
    [((("room")), m.room), ((("target")), m.target), ((("emoji")), m.emoji)]
  | Handler.presence_request, m => [((("room")), m.room)]
  | Handler.typing, m => [((("room")), m.room)]

/-- `messageHandlers.join`: set `ws.username` from the `sender` field, then
join the room. -/
def handleJoin (st : State) (c : ConnId) (m : Msg) (_now : Int) :
    State × List (ConnId × Event) :=
  match requireFields st c (requiredPairs Handler.join m) with
  | some errs => (st, errs)
  | none =>
    let st1 := updConn st c (fun cn => { cn with username := some (strOf m.sender) })
    joinRoom st1 c (strOf m.room)

/-- `messageHandlers.leave`. -/
def handleLeave (st : State) (c : ConnId) (m : Msg) (_now : Int) :
    State × List (ConnId × Event) :=
  match requireFields st c (requiredPairs Handler.leave m) with
  | some errs => (st, errs)
  | none => leaveRoom st c (strOf m.room)

/-- `messageHandlers.message`: broadcast to the room (sender included) if the
sender is a member; else silently drop.  The timestamp defaults via `||`. -/
def handleMessage (st : State) (c : ConnId) (m : Msg) (now : Int) :
    State × List (ConnId × Event) :=
  match requireFields st c (requiredPairs Handler.message m) with
  | some errs => (st, errs)
  | none =>
    if strOf m.room ∈ (st.conns c).crooms then
      (st, broadcastToRoom st (strOf m.room)
        (Event.message (strOf m.room) ((st.conns c).username) (strOf m.content)
          (jsOr m.timestamp (JValue.num now)) (jsOr m.reply JValue.null)) none)
    else (st, [])

/-- `messageHandlers.reaction`. -/
def handleReaction (st : State) (c : ConnId) (m : Msg) (now : Int) :
    State × List (ConnId × Event) :=
  match requireFields st c (requiredPairs Handler.reaction m) with
  | some errs => (st, errs)
  | none =>
    if strOf m.room ∈ (st.conns c).crooms then
      (st, broadcastToRoom st (strOf m.room)
        (Event.reaction (strOf m.room) ((st.conns c).username) (strOf m.target)
          (strOf m.emoji) (jsOr m.timestamp (JValue.num now))) none)
    else (st, [])

/-- `messageHandlers.presence_request`. -/
def handlePresenceRequest (st : State) (c : ConnId) (m : Msg) (_now : Int) :
    State × List (ConnId × Event) :=
  match requireFields st c (requiredPairs Handler.presence_request m) with
  | some errs => (st, errs)
  | none =>
    if strOf m.room ∈ (st.conns c).crooms then
      (st, broadcastPresence st (strOf m.room))
    else (st, [])

/-- `messageHandlers.typing`: requires a truthy `ws.username` and membership;
creates the typing entry if absent, adds or deletes the username according to
the truthiness of the `typing` field, then broadcasts the resulting list.
Note the entry is stored even when the resulting set is empty. -/
def handleTyping (st : State) (c : ConnId) (m : Msg) (_now : Int) :
    State × List (ConnId × Event) :=
  match requireFields st c (requiredPairs Handler.typing m) with
  | some errs => (st, errs)
  | none =>
    let room := strOf m.room
    match (st.conns c).username with
    | none => (st, [])
    | some user =>
      if user = ("") then (st, [])
      else if room ∈ (st.conns c).crooms then
        let ts' :=
          if jtruthy m.typing then sadd (typingOf st room) user
          else (typingOf st room).erase user
        let st' := { st with typingUsers := aset st.typingUsers room ts' }
        (st', broadcastToRoom st' room (Event.typing room ts') none)
      else (st, [])

/-- Run the handler stored under a dispatch key. -/
def runHandler : Handler → State → ConnId → Msg → Int →
    State × List (ConnId × Event)
  | Handler.join => handleJoin
  | Handler.leave => handleLeave
  | Handler.message => handleMessage
  | Handler.reaction => handleReaction
  | Handler.presence_request => handlePresenceRequest
  | Handler.typing => handleTyping

/-- Own properties of the `messageHandlers` object literal. -/
def ownHandler (k : String) : Option Handler :=
  if k = (("join")) then some Handler.join
  else if k = (("leave")) then some Handler.leave
  else if k = (("message")) then some Handler.message
  else if k = (("reaction")) then some Handler.reaction
  else if k = (("presence_request")) then some Handler.presence_request
  else if k = (("typing")) then some Handler.typing
  else none

/-- Property keys an object literal inherits from `Object.prototype`, all of
whose values are truthy (functions, or `Object.prototype` itself for the
`__proto__` accessor). -/
def objectProtoKeys : List String :=
  [(("constructor")), (("hasOwnProperty")), (("isPrototypeOf")),
   (("propertyIsEnumerable")), (("toLocaleString")), (("toString")),
   (("valueOf")), (("__proto__")), (("__defineGetter__")),
   (("__defineSetter__")), (("__lookupGetter__")), (("__lookupSetter__"))]

/-- Result of the JS property lookup `messageHandlers[data.type]`. -/
inductive HandlerLookup
  | handler (h : Handler)
  | inherited
  | undef
deriving DecidableEq

/-- `messageHandlers[k]`: an own property, else a (truthy) property inherited
from `Object.prototype`, else `undefined`. -/
def lookupHandler (k : String) : HandlerLookup :=
  match ownHandler k with
  | some h => HandlerLookup.handler h
  | none =>
    if k ∈ objectProtoKeys then HandlerLookup.inherited else HandlerLookup.undef

/-- Dispatch a decoded, truthy message object.  An inherited lookup result is
truthy, so it is invoked as the handler: calling it sends nothing and mutates
no server state (for the non-callable `__proto__` value the call throws,
likewise sending nothing and mutating nothing before the throw). -/
def routeData (st : State) (c : ConnId) (m : Msg) (now : Int) :
    State × List (ConnId × Event) :=
  match lookupHandler (propKey m.type) with
  | HandlerLookup.handler h => runHandler h st c m now
  | HandlerLookup.inherited => (st, [])
  | HandlerLookup.undef =>
    (st, send1 st c (Event.error ((("Unknown message type: ")) ++ propKey m.type)))

/-- The `ws.on('message')` listener: parse, reject falsy decode results with
the `Invalid JSON` error, then dispatch on `data.type`.  A truthy decoded
primitive has no properties of its own, so all fields read as absent. -/
def route (st : State) (c : ConnId) (inb : Inbound) (now : Int) :
    State × List (ConnId × Event) :=
  match inb with
  | Inbound.malformed => (st, send1 st c (Event.error (("Invalid JSON"))))
  | Inbound.prim v =>
    if v.truthy then routeData st c {} now
    else (st, send1 st c (Event.error (("Invalid JSON"))))
  | Inbound.obj m => routeData st c m now

/-- The `ws.on('close')` listener: the socket is no longer open, and every
room recorded on the connection is left in iteration order (each iteration
deletes the room currently visited, which JS `Set` iteration permits; the
effect equals iterating the snapshot taken at entry). -/
def disconnect (st : State) (c : ConnId) : State × List (ConnId × Event) :=
  let st0 := updConn st c (fun cn => { cn with isOpen := false })
  ((st0.conns c).crooms).foldl
    (fun acc room => ((leaveRoom acc.1 c room).1, acc.2 ++ (leaveRoom acc.1 c room).2))
    (st0, [])

/-- An externally-triggered step: an inbound frame from a connection, or a
connection closing. -/
inductive Op
  | recv (c : ConnId) (inb : Inbound) (now : Int)
  | close (c : ConnId)

/-- Apply one step. -/
def applyOp (st : State) (op : Op) : State × List (ConnId × Event) :=
  match op with
  | Op.recv c inb now => route st c inb now
  | Op.close c => disconnect st c

/-- A fresh connection: `ws.username = null`, `ws.rooms = new Set()`, open. -/
def initConn : Conn :=
  { username := none, crooms := [], isOpen := true }

/-- Server start: no rooms, no typing sets, every connection fresh. -/
def initState : State :=
  { conns := fun _ => initConn, rooms := [], typingUsers := [] }

/-- Run a sequence of steps, keeping only the final state. -/
def execOps (st : State) (ops : List Op) : State :=
  ops.foldl (fun s o => (applyOp s o).1) st

/-- States reachable from server start by any sequence of steps. -/
inductive Reachable : State → Prop
  | init : Reachable initState
  | step (st : State) (op : Op) : Reachable st → Reachable (applyOp st op).1

/-- A step is identity-stable when, if it is a `join` that would pass field
validation, the supplied `sender` agrees with the connection's current
display identity (or the identity is still unset). -/
def stableOp (st : State) (op : Op) : Bool :=
  match op with
  | Op.close _ => true
  | Op.recv c inb _ =>
    match inb with
    | Inbound.obj m =>
      if propKey m.type == (("join")) && fieldValid m.room && fieldValid m.sender then
        match (st.conns c).username with
        | none => true
        | some u => u == strOf m.sender
      else true
    | _ => true

/-- States reachable using only identity-stable steps. -/
inductive ReachableStable : State → Prop
  | init : ReachableStable initState
  | step (st : State) (op : Op) : ReachableStable st → stableOp st op = true →
      ReachableStable (applyOp st op).1

/-- The typing-subset property claimed by the spec: every identity in a
room's typing set is the display identity of some current member. -/
def TypingSubsetInv (st : State) : Prop :=
  ∀ room u, u ∈ typingOf st room →
    ∃ cc, cc ∈ roomMembers st room ∧ (st.conns cc).username = some u

/-- Keys of an association list are duplicate-free. -/
def KeysNodup {β : Type} (l : List (String × β)) : Prop :=
  (l.map Prod.fst).Nodup

/-- Structural well-formedness of a server state: both maps have
duplicate-free keys, member sets are non-empty and duplicate-free, typing
sets are duplicate-free, per-connection room records are duplicate-free, and
directory membership agrees with the per-connection records. -/
def WF (st : State) : Prop :=
  KeysNodup st.rooms ∧ KeysNodup st.typingUsers ∧
  (∀ r mem, alookup st.rooms r = some mem → mem ≠ [] ∧ mem.Nodup) ∧
  (∀ r ts, alookup st.typingUsers r = some ts → ts.Nodup) ∧
  (∀ cc, (st.conns cc).crooms.Nodup) ∧
  (∀ cc r, cc ∈ roomMembers st r ↔ r ∈ (st.conns cc).crooms)

/-- Decoded-to-falsy predicate on an inbound frame: parse failure (which
yields `null`) or a falsy JSON literal. -/
def decodedFalsy : Inbound → Bool
  | Inbound.malformed => true
  | Inbound.prim v => !v.truthy
  | Inbound.obj _ => false

/-- Inbound `join` frame. -/
def joinInb (room sender : String) : Inbound :=
  Inbound.obj { type := some (JValue.str (("join"))),
                room := some (JValue.str room),
                sender := some (JValue.str sender) }

/-- Inbound `leave` frame. -/
def leaveInb (room : String) : Inbound :=
  Inbound.obj { type := some (JValue.str (("leave"))),
                room := some (JValue.str room) }

/-- Inbound `typing` frame. -/
def typingInb (room : String) (flag : Bool) : Inbound :=
  Inbound.obj { type := some (JValue.str (("typing"))),
                room := some (JValue.str room),
                typing := some (JValue.bool flag) }

/-- Inbound `message` frame with an optional timestamp field. -/
def messageInb (room content : String) (ts : Option JValue) : Inbound :=
  Inbound.obj { type := some (JValue.str (("message"))),
                room := some (JValue.str room),
                content := some (JValue.str content),
                timestamp := ts }

/-- Trace: alice joins and types in room r, then re-joins announcing the
name bob (the join handler overwrites `ws.username`). -/
def renameSt : State := execOps initState
  [Op.recv 0 (joinInb (("r")) (("alice"))) 1,
   Op.recv 0 (typingInb (("r")) true) 2,
   Op.recv 0 (joinInb (("r")) (("bob"))) 3]

/-- Trace: alice joins room r and sends a typing=false toggle. -/
def emptyTypingSt : State := execOps initState
  [Op.recv 0 (joinInb (("r")) (("alice"))) 1,
   Op.recv 0 (typingInb (("r")) false) 2]

/-- Trace: alice joined to room r. -/
def oneUserSt : State := execOps initState
  [Op.recv 0 (joinInb (("r")) (("alice"))) 1]

/-- Trace: connection 0 is alice, typing in room r; connection 1 joined room
x under the same display name alice and never joined r. -/
def foreignLeaveSt : State := execOps initState
  [Op.recv 0 (joinInb (("r")) (("alice"))) 1,
   Op.recv 0 (typingInb (("r")) true) 2,
   Op.recv 1 (joinInb (("x")) (("alice"))) 3]

/-- Trace: alice joins room r and starts typing (identity never changes). -/
def stableSt : State := execOps initState
  [Op.recv 0 (joinInb (("r")) (("alice"))) 1,
   Op.recv 0 (typingInb (("r")) true) 2]

/-- A valid message event for room r carrying the explicit timestamp 0. -/
def mC4 : Msg :=
  { type := some (JValue.str (("message"))),
    room := some (JValue.str (("r"))),
    content := some (JValue.str (("hi"))),
    timestamp := some (JValue.num 0) }

/-- A payload carrying valid strings for every field any of the member-gated
handlers requires (used to exercise the reaction handler). -/
def mC6 : Msg :=
  { type := some (JValue.str (("message"))),
    room := some (JValue.str (("general"))),
    content := some (JValue.str (("hi"))),
    target := some (JValue.str (("msg1"))),
    emoji := some (JValue.str (("smile"))) }

/-- The spec's scenario payload: a message event carrying only type, room and
content — no target or emoji fields. -/
def mC6msg : Msg :=
  { type := some (JValue.str (("message"))),
    room := some (JValue.str (("general"))),
    content := some (JValue.str (("hi"))) }

end Chat2

namespace Chat2

theorem alookup_aset_self {β : Type} (l : List (String × β)) (k : String) (v : β) :
    alookup (aset l k v) k = some v := by
  induction l with
  | nil => simp [aset, alookup]
  | cons p t ih =>
    obtain ⟨k', v'⟩ := p
    by_cases h : k' = k
    · simp [aset, h, alookup]
    · simp [aset, h, alookup, ih]

theorem alookup_aset_ne {β : Type} (l : List (String × β)) (k k' : String) (v : β)
    (h : k' ≠ k) : alookup (aset l k v) k' = alookup l k' := by
  induction l with
  | nil => simp [aset, alookup, Ne.symm h]
  | cons p t ih =>
    obtain ⟨k0, v0⟩ := p
    by_cases hk : k0 = k
    · subst hk
      simp [aset, alookup, Ne.symm h]
    · simp [aset, alookup, hk, ih]

theorem alookup_adel_self {β : Type} (l : List (String × β)) (k : String) :
    alookup (adel l k) k = none := by
  induction l with
  | nil => rfl
  | cons p t ih =>
    obtain ⟨k0, v0⟩ := p
    by_cases hk : k0 = k
    · simpa [adel, List.filter_cons, hk] using ih
    · simpa [adel, List.filter_cons, alookup, hk] using ih

theorem alookup_adel_ne {β : Type} (l : List (String × β)) (k k' : String)
    (h : k' ≠ k) : alookup (adel l k) k' = alookup l k' := by
  induction l with
  | nil => rfl
  | cons p t ih =>
    obtain ⟨k0, v0⟩ := p
    by_cases hk : k0 = k
    · subst hk
      simpa [adel, List.filter_cons, alookup, Ne.symm h] using ih
    · have hstep : adel ((k0, v0) :: t) k = (k0, v0) :: adel t k := by
        simp [adel, List.filter_cons, hk]
      rw [hstep]
      simp only [alookup]
      split
      · rfl
      · exact ih

theorem mem_keys_aset {β : Type} (l : List (String × β)) (k k' : String) (v : β) :
    k' ∈ (aset l k v).map Prod.fst ↔ k' ∈ l.map Prod.fst ∨ k' = k := by
  induction l with
  | nil => simp [aset]
  | cons p t ih =>
    obtain ⟨k0, v0⟩ := p
    by_cases hk : k0 = k
    · subst hk
      simp [aset]
      tauto
    · simp [aset, hk, ih]
      tauto

theorem KeysNodup_aset {β : Type} {l : List (String × β)} {k : String} {v : β}
    (h : KeysNodup l) : KeysNodup (aset l k v) := by
  induction l with
  | nil => simp [KeysNodup, aset]
  | cons p t ih =>
    obtain ⟨k0, v0⟩ := p
    rw [KeysNodup, List.map_cons, List.nodup_cons] at h
    by_cases hk : k0 = k
    · rw [KeysNodup]
      simp only [aset, if_pos hk, List.map_cons, List.nodup_cons]
      exact h
    · rw [KeysNodup]
      simp only [aset, if_neg hk, List.map_cons, List.nodup_cons]
      refine ⟨fun hmem => ?_, ih h.2⟩
      rcases (mem_keys_aset t k k0 v).1 hmem with hc | hc
      · exact h.1 hc
      · exact hk hc

theorem KeysNodup_adel {β : Type} {l : List (String × β)} (h : KeysNodup l)
    (k : String) : KeysNodup (adel l k) :=
  List.Nodup.sublist ((List.filter_sublist l).map Prod.fst) h

theorem aset_self {β : Type} {l : List (String × β)} {k : String} {v : β}
    (h : KeysNodup l) (hl : alookup l k = some v) : aset l k v = l := by
  induction l with
  | nil => simp [alookup] at hl
  | cons p t ih =>
    obtain ⟨k0, v0⟩ := p
    rw [KeysNodup, List.map_cons, List.nodup_cons] at h
    by_cases hk : k0 = k
    · subst hk
      simp [alookup] at hl
      simp [aset, hl]
    · simp [alookup, hk] at hl
      simp [aset, hk, ih h.2 hl]

theorem mem_sadd {α : Type} [DecidableEq α] (l : List α) (x y : α) :
    y ∈ sadd l x ↔ y ∈ l ∨ y = x := by
  by_cases h : x ∈ l
  · simp only [sadd, if_pos h]
    constructor
    · exact Or.inl
    · rintro (hy | rfl)
      · exact hy
      · exact h
  · simp [sadd, h]

theorem sadd_ne_nil {α : Type} [DecidableEq α] (l : List α) (x : α) :
    sadd l x ≠ [] := by
  by_cases h : x ∈ l
  · simp only [sadd, if_pos h]
    rintro rfl
    simp at h
  · simp [sadd, h]

theorem nodup_sadd {α : Type} [DecidableEq α] {l : List α} (h : l.Nodup) (x : α) :
    (sadd l x).Nodup := by
  by_cases hx : x ∈ l
  · simpa [sadd, hx] using h
  · simp only [sadd, if_neg hx]
    exact List.Nodup.append h (List.nodup_singleton x) (by simpa using hx)

theorem erase_eq_nil {α : Type} [DecidableEq α] {l : List α} {a : α}
    (h : l.erase a = []) : l = [] ∨ l = [a] := by
  cases l with
  | nil => exact Or.inl rfl
  | cons b t =>
    rw [List.erase_cons] at h
    by_cases hb : b = a
    · subst hb
      simp at h
      subst h
      exact Or.inr rfl
    · simp [hb] at h

end Chat2

namespace Chat2

theorem updConn_rooms (st : State) (c : ConnId) (f : Conn → Conn) :
    (updConn st c f).rooms = st.rooms := rfl

theorem updConn_typingUsers (st : State) (c : ConnId) (f : Conn → Conn) :
    (updConn st c f).typingUsers = st.typingUsers := rfl

theorem updConn_conns_self (st : State) (c : ConnId) (f : Conn → Conn) :
    (updConn st c f).conns c = f (st.conns c) := by
  simp [updConn]

theorem updConn_conns_ne (st : State) (c : ConnId) (f : Conn → Conn)
    (c' : ConnId) (h : c' ≠ c) : (updConn st c f).conns c' = st.conns c' := by
  simp [updConn, h]

theorem leaveDirSt_typingUsers (st : State) (c : ConnId) (room : String) :
    (leaveDirSt st c room).typingUsers = st.typingUsers := by
  unfold leaveDirSt
  cases alookup st.rooms room with
  | none => rfl
  | some mem =>
    dsimp only
    split <;> rfl

theorem leaveDirSt_rooms (st : State) (c : ConnId) (room : String) :
    (leaveDirSt st c room).rooms =
      (match alookup st.rooms room with
       | none => st.rooms
       | some mem =>
         if mem.erase c = [] then adel st.rooms room
         else aset st.rooms room (mem.erase c)) := by
  unfold leaveDirSt
  cases alookup st.rooms room with
  | none => rfl
  | some mem =>
    dsimp only
    split <;> rfl

theorem leaveDirSt_conns_username (st : State) (c : ConnId) (room : String)
    (cc : ConnId) :
    ((leaveDirSt st c room).conns cc).username = (st.conns cc).username := by
  unfold leaveDirSt
  cases alookup st.rooms room with
  | none =>
    dsimp only
    by_cases h : cc = c <;> simp [updConn, h]
  | some mem =>
    dsimp only
    split <;> by_cases h : cc = c <;> simp [updConn, h]

theorem leaveDirSt_conns_isOpen (st : State) (c : ConnId) (room : String)
    (cc : ConnId) :
    ((leaveDirSt st c room).conns cc).isOpen = (st.conns cc).isOpen := by
  unfold leaveDirSt
  cases alookup st.rooms room with
  | none =>
    dsimp only
    by_cases h : cc = c <;> simp [updConn, h]
  | some mem =>
    dsimp only
    split <;> by_cases h : cc = c <;> simp [updConn, h]

theorem leaveDirSt_conns_crooms_self (st : State) (c : ConnId) (room : String) :
    ((leaveDirSt st c room).conns c).crooms = ((st.conns c).crooms).erase room := by
  unfold leaveDirSt
  cases alookup st.rooms room with
  | none => simp [updConn]
  | some mem =>
    dsimp only
    split <;> simp [updConn]

theorem leaveDirSt_conns_ne (st : State) (c : ConnId) (room : String)
    (cc : ConnId) (h : cc ≠ c) :
    (leaveDirSt st c room).conns cc = st.conns cc := by
  unfold leaveDirSt
  cases alookup st.rooms room with
  | none => simp [updConn, h]
  | some mem =>
    dsimp only
    split <;> simp [updConn, h]

theorem leaveRoom_fst_rooms (st : State) (c : ConnId) (room : String) :
    (leaveRoom st c room).1.rooms = (leaveDirSt st c room).rooms := by
  unfold leaveRoom
  dsimp only
  cases alookup (leaveDirSt st c room).typingUsers room with
  | none => rfl
  | some ts =>
    dsimp only
    split <;> rfl

theorem leaveRoom_fst_conns (st : State) (c : ConnId) (room : String) :
    (leaveRoom st c room).1.conns = (leaveDirSt st c room).conns := by
  unfold leaveRoom
  dsimp only
  cases alookup (leaveDirSt st c room).typingUsers room with
  | none => rfl
  | some ts =>
    dsimp only
    split <;> rfl

theorem leaveRoom_fst_typingUsers (st : State) (c : ConnId) (room : String) :
    (leaveRoom st c room).1.typingUsers =
      (match alookup st.typingUsers room with
       | none => st.typingUsers
       | some ts =>
         if eraseUser ts ((st.conns c).username) = [] then adel st.typingUsers room
         else aset st.typingUsers room (eraseUser ts ((st.conns c).username))) := by
  unfold leaveRoom
  dsimp only
  rw [leaveDirSt_typingUsers]
  cases alookup st.typingUsers room with
  | none => simp [leaveDirSt_typingUsers]
  | some ts =>
    dsimp only
    split <;> rfl

theorem handleMessage_fst (st : State) (c : ConnId) (m : Msg) (now : Int) :
    (handleMessage st c m now).1 = st := by
  unfold handleMessage
  cases requireFields st c (requiredPairs Handler.message m) with
  | none =>
    dsimp only
    split <;> rfl
  | some errs => rfl

theorem handleReaction_fst (st : State) (c : ConnId) (m : Msg) (now : Int) :
    (handleReaction st c m now).1 = st := by
  unfold handleReaction
  cases requireFields st c (requiredPairs Handler.reaction m) with
  | none =>
    dsimp only
    split <;> rfl
  | some errs => rfl

theorem handlePresenceRequest_fst (st : State) (c : ConnId) (m : Msg) (now : Int) :
    (handlePresenceRequest st c m now).1 = st := by
  unfold handlePresenceRequest
  cases requireFields st c (requiredPairs Handler.presence_request m) with
  | none =>
    dsimp only
    split <;> rfl
  | some errs => rfl

theorem leaveFoldPair_fst (c : ConnId) (l : List String) (st : State)
    (out : List (ConnId × Event)) :
    (l.foldl
      (fun acc room => ((leaveRoom acc.1 c room).1, acc.2 ++ (leaveRoom acc.1 c room).2))
      (st, out)).1
      = l.foldl (fun s room => (leaveRoom s c room).1) st := by
  induction l generalizing st out with
  | nil => rfl
  | cons r t ih =>
    simp only [List.foldl_cons]
    exact ih _ _

theorem disconnect_fst (st : State) (c : ConnId) :
    (disconnect st c).1 =
      ((updConn st c (fun cn => { cn with isOpen := false })).conns c).crooms.foldl
        (fun s room => (leaveRoom s c room).1)
        (updConn st c (fun cn => { cn with isOpen := false })) := by
  unfold disconnect
  exact leaveFoldPair_fst _ _ _ _

end Chat2

namespace Chat2

theorem joinSt_rooms (st : State) (c : ConnId) (room : String) :
    (joinSt st c room).rooms = aset st.rooms room (sadd (roomMembers st room) c) := rfl

theorem joinSt_typingUsers (st : State) (c : ConnId) (room : String) :
    (joinSt st c room).typingUsers = st.typingUsers := rfl

theorem joinSt_conns_self (st : State) (c : ConnId) (room : String) :
    (joinSt st c room).conns c = { st.conns c with crooms := sadd ((st.conns c).crooms) room } := by
  simp [joinSt, updConn]

theorem joinSt_conns_ne (st : State) (c : ConnId) (room : String) (cc : ConnId)
    (h : cc ≠ c) : (joinSt st c room).conns cc = st.conns cc := by
  simp [joinSt, updConn, h]

theorem roomMembers_joinSt_self (st : State) (c : ConnId) (room : String) :
    roomMembers (joinSt st c room) room = sadd (roomMembers st room) c := by
  simp [roomMembers, joinSt_rooms, alookup_aset_self]

theorem roomMembers_joinSt_ne (st : State) (c : ConnId) (room : String)
    (r : String) (hr : r ≠ room) :
    roomMembers (joinSt st c room) r = roomMembers st r := by
  simp [roomMembers, joinSt_rooms, alookup_aset_ne _ _ _ _ hr]

theorem crooms_joinSt_self (st : State) (c : ConnId) (room : String) :
    ((joinSt st c room).conns c).crooms = sadd ((st.conns c).crooms) room := by
  rw [joinSt_conns_self]

theorem crooms_joinSt_ne (st : State) (c : ConnId) (room : String) (cc : ConnId)
    (hc : cc ≠ c) : ((joinSt st c room).conns cc).crooms = (st.conns cc).crooms := by
  rw [joinSt_conns_ne _ _ _ _ hc]

theorem WF_updConn_keep (st : State) (c : ConnId) (f : Conn → Conn)
    (hf : ∀ cn, (f cn).crooms = cn.crooms) (h : WF st) : WF (updConn st c f) := by
  obtain ⟨h1, h2, h3, h4, h5, h6⟩ := h
  refine ⟨h1, h2, h3, h4, ?_, ?_⟩
  · intro cc
    by_cases hc : cc = c
    · subst hc
      rw [updConn_conns_self, hf]
      exact h5 cc
    · rw [updConn_conns_ne _ _ _ _ hc]
      exact h5 cc
  · intro cc r
    by_cases hc : cc = c
    · subst hc
      rw [updConn_conns_self, hf]
      exact h6 cc r
    · rw [updConn_conns_ne _ _ _ _ hc]
      exact h6 cc r

theorem typingOf_nodup (st : State)
    (h4 : ∀ r ts, alookup st.typingUsers r = some ts → ts.Nodup) (room : String) :
    (typingOf st room).Nodup := by
  cases hts : alookup st.typingUsers room with
  | none => simp [typingOf, hts]
  | some ts => simpa [typingOf, hts] using h4 room ts hts

theorem roomMembers_nodup (st : State)
    (h3 : ∀ r mem, alookup st.rooms r = some mem → mem ≠ [] ∧ mem.Nodup) (room : String) :
    (roomMembers st room).Nodup := by
  cases hr : alookup st.rooms room with
  | none => simp [roomMembers, hr]
  | some mem => simpa [roomMembers, hr] using (h3 room mem hr).2

theorem WF_joinSt (st : State) (c : ConnId) (room : String) (h : WF st) :
    WF (joinSt st c room) := by
  obtain ⟨h1, h2, h3, h4, h5, h6⟩ := h
  have hmemnd : (roomMembers st room).Nodup := roomMembers_nodup st h3 room
  refine ⟨?_, h2, ?_, h4, ?_, ?_⟩
  · exact KeysNodup_aset h1
  · intro r mem hmem
    rw [joinSt_rooms] at hmem
    by_cases hr : r = room
    · subst hr
      rw [alookup_aset_self] at hmem
      cases hmem
      exact ⟨sadd_ne_nil _ _, nodup_sadd hmemnd c⟩
    · rw [alookup_aset_ne _ _ _ _ hr] at hmem
      exact h3 r mem hmem
  · intro cc
    by_cases hc : cc = c
    · subst hc
      rw [crooms_joinSt_self]
      exact nodup_sadd (h5 cc) room
    · rw [crooms_joinSt_ne _ _ _ _ hc]
      exact h5 cc
  · intro cc r
    by_cases hr : r = room
    · subst hr
      by_cases hc : cc = c
      · subst hc
        rw [roomMembers_joinSt_self, crooms_joinSt_self, mem_sadd, mem_sadd]
        simp
      · rw [roomMembers_joinSt_self, crooms_joinSt_ne _ _ _ _ hc, mem_sadd]
        constructor
        · rintro (hm | hm)
          · exact (h6 cc r).1 hm
          · exact absurd hm hc
        · intro hm
          exact Or.inl ((h6 cc r).2 hm)
    · by_cases hc : cc = c
      · subst hc
        rw [roomMembers_joinSt_ne _ _ _ _ hr, crooms_joinSt_self, mem_sadd]
        constructor
        · intro hm
          exact Or.inl ((h6 cc r).1 hm)
        · rintro (hm | hm)
          · exact (h6 cc r).2 hm
          · exact absurd hm hr
      · rw [roomMembers_joinSt_ne _ _ _ _ hr, crooms_joinSt_ne _ _ _ _ hc]
        exact h6 cc r

end Chat2

namespace Chat2

theorem nodup_eraseUser {ts : List String} (h : ts.Nodup) (u : Option String) :
    (eraseUser ts u).Nodup := by
  cases u with
  | none => exact h
  | some name => exact h.erase name

theorem mem_roomMembers_leaveDirSt (st : State) (c : ConnId) (room : String)
    (h3 : ∀ r mem, alookup st.rooms r = some mem → mem ≠ [] ∧ mem.Nodup)
    (cc : ConnId) (r : String) :
    cc ∈ roomMembers (leaveDirSt st c room) r ↔
      cc ∈ roomMembers st r ∧ ¬(r = room ∧ cc = c) := by
  have hrw : roomMembers (leaveDirSt st c room) r =
      (alookup (leaveDirSt st c room).rooms r).getD [] := rfl
  rw [hrw, leaveDirSt_rooms]
  by_cases hr : r = room
  · subst hr
    cases hr0 : alookup st.rooms r with
    | none =>
      simp [roomMembers, hr0]
    | some mem0 =>
      dsimp only
      by_cases he : mem0.erase c = []
      · rw [if_pos he, alookup_adel_self]
        rcases erase_eq_nil he with hcase | hcase
        · exact absurd hcase (h3 r mem0 hr0).1
        · subst hcase
          simp [roomMembers, hr0]
      · rw [if_neg he, alookup_aset_self]
        rw [show (some (mem0.erase c)).getD [] = mem0.erase c from rfl]
        rw [((h3 r mem0 hr0).2).mem_erase_iff]
        simp [roomMembers, hr0]
        tauto
  · cases hr0 : alookup st.rooms room with
    | none =>
      simp [roomMembers, hr]
    | some mem0 =>
      dsimp only
      by_cases he : mem0.erase c = []
      · rw [if_pos he, alookup_adel_ne _ _ _ hr]
        simp [roomMembers, hr]
      · rw [if_neg he, alookup_aset_ne _ _ _ _ hr]
        simp [roomMembers, hr]

theorem mem_crooms_leaveDirSt (st : State) (c : ConnId) (room : String)
    (h5 : ∀ cc, ((st.conns cc).crooms).Nodup) (cc : ConnId) (r : String) :
    r ∈ ((leaveDirSt st c room).conns cc).crooms ↔
      r ∈ (st.conns cc).crooms ∧ ¬(r = room ∧ cc = c) := by
  by_cases hc : cc = c
  · subst hc
    rw [leaveDirSt_conns_crooms_self, (h5 cc).mem_erase_iff]
    tauto
  · rw [leaveDirSt_conns_ne _ _ _ _ hc]
    simp [hc]

theorem WF_leaveRoom (st : State) (c : ConnId) (room : String) (h : WF st) :
    WF (leaveRoom st c room).1 := by
  obtain ⟨h1, h2, h3, h4, h5, h6⟩ := h
  refine ⟨?_, ?_, ?_, ?_, ?_, ?_⟩
  · rw [leaveRoom_fst_rooms, leaveDirSt_rooms]
    cases alookup st.rooms room with
    | none => exact h1
    | some mem =>
      dsimp only
      split
      · exact KeysNodup_adel h1 room
      · exact KeysNodup_aset h1
  · rw [leaveRoom_fst_typingUsers]
    cases alookup st.typingUsers room with
    | none => exact h2
    | some ts =>
      dsimp only
      split
      · exact KeysNodup_adel h2 room
      · exact KeysNodup_aset h2
  · intro r mem hmem
    rw [leaveRoom_fst_rooms, leaveDirSt_rooms] at hmem
    cases hr0 : alookup st.rooms room with
    | none =>
      rw [hr0] at hmem
      exact h3 r mem hmem
    | some mem0 =>
      rw [hr0] at hmem
      dsimp only at hmem
      by_cases he : mem0.erase c = []
      · rw [if_pos he] at hmem
        by_cases hr : r = room
        · subst hr
          rw [alookup_adel_self] at hmem
          cases hmem
        · rw [alookup_adel_ne _ _ _ hr] at hmem
          exact h3 r mem hmem
      · rw [if_neg he] at hmem
        by_cases hr : r = room
        · subst hr
          rw [alookup_aset_self] at hmem
          cases hmem
          exact ⟨he, ((h3 r mem0 hr0).2).erase c⟩
        · rw [alookup_aset_ne _ _ _ _ hr] at hmem
          exact h3 r mem hmem
  · intro r ts hts
    rw [leaveRoom_fst_typingUsers] at hts
    cases ht0 : alookup st.typingUsers room with
    | none =>
      rw [ht0] at hts
      exact h4 r ts hts
    | some ts0 =>
      rw [ht0] at hts
      dsimp only at hts
      by_cases he : eraseUser ts0 ((st.conns c).username) = []
      · rw [if_pos he] at hts
        by_cases hr : r = room
        · subst hr
          rw [alookup_adel_self] at hts
          cases hts
        · rw [alookup_adel_ne _ _ _ hr] at hts
          exact h4 r ts hts
      · rw [if_neg he] at hts
        by_cases hr : r = room
        · subst hr
          rw [alookup_aset_self] at hts
          cases hts
          exact nodup_eraseUser (h4 r ts0 ht0) _
        · rw [alookup_aset_ne _ _ _ _ hr] at hts
          exact h4 r ts hts
  · intro cc
    rw [leaveRoom_fst_conns]
    by_cases hc : cc = c
    · subst hc
      rw [leaveDirSt_conns_crooms_self]
      exact (h5 cc).erase room
    · rw [leaveDirSt_conns_ne _ _ _ _ hc]
      exact h5 cc
  · intro cc r
    have hmm : roomMembers (leaveRoom st c room).1 r = roomMembers (leaveDirSt st c room) r := by
      simp only [roomMembers, leaveRoom_fst_rooms]
    rw [hmm, leaveRoom_fst_conns, mem_roomMembers_leaveDirSt st c room h3 cc r,
      mem_crooms_leaveDirSt st c room h5 cc r, h6 cc r]

theorem WF_typingOnly (st : State) (tu : List (String × List String))
    (h : WF st) (hk : KeysNodup tu)
    (hv : ∀ r ts, alookup tu r = some ts → ts.Nodup) :
    WF { st with typingUsers := tu } := by
  obtain ⟨h1, _, h3, _, h5, h6⟩ := h
  exact ⟨h1, hk, h3, hv, h5, h6⟩

theorem WF_setTyping (st : State) (room : String) (ts' : List String)
    (h : WF st) (hnd : ts'.Nodup) :
    WF { st with typingUsers := aset st.typingUsers room ts' } := by
  refine WF_typingOnly st _ h (KeysNodup_aset h.2.1) ?_
  intro r ts hts
  by_cases hr : r = room
  · subst hr
    rw [alookup_aset_self] at hts
    cases hts
    exact hnd
  · rw [alookup_aset_ne _ _ _ _ hr] at hts
    exact h.2.2.2.1 r ts hts

theorem WF_handleJoin (st : State) (c : ConnId) (m : Msg) (now : Int)
    (h : WF st) : WF (handleJoin st c m now).1 := by
  unfold handleJoin
  cases requireFields st c (requiredPairs Handler.join m) with
  | none =>
    dsimp only
    exact WF_joinSt _ _ _ (WF_updConn_keep _ _ _ (fun cn => rfl) h)
  | some errs => exact h

theorem WF_handleLeave (st : State) (c : ConnId) (m : Msg) (now : Int)
    (h : WF st) : WF (handleLeave st c m now).1 := by
  unfold handleLeave
  cases requireFields st c (requiredPairs Handler.leave m) with
  | none =>
    dsimp only
    exact WF_leaveRoom _ _ _ h
  | some errs => exact h

theorem WF_handleTyping (st : State) (c : ConnId) (m : Msg) (now : Int)
    (h : WF st) : WF (handleTyping st c m now).1 := by
  unfold handleTyping
  cases requireFields st c (requiredPairs Handler.typing m) with
  | none =>
    dsimp only
    cases (st.conns c).username with
    | none => exact h
    | some user =>
      dsimp only
      by_cases hue : user = ("")
      · rw [if_pos hue]
        exact h
      · rw [if_neg hue]
        by_cases hmem : strOf m.room ∈ (st.conns c).crooms
        · rw [if_pos hmem]
          dsimp only
          have hnd : (if jtruthy m.typing then sadd (typingOf st (strOf m.room)) user
              else (typingOf st (strOf m.room)).erase user).Nodup := by
            split
            · exact nodup_sadd (typingOf_nodup st h.2.2.2.1 _) user
            · exact (typingOf_nodup st h.2.2.2.1 _).erase user
          exact WF_setTyping st _ _ h hnd
        · rw [if_neg hmem]
          exact h
  | some errs => exact h

theorem WF_runHandler (hd : Handler) (st : State) (c : ConnId) (m : Msg)
    (now : Int) (h : WF st) : WF (runHandler hd st c m now).1 := by
  cases hd with
  | join => exact WF_handleJoin st c m now h
  | leave => exact WF_handleLeave st c m now h
  | message =>
    rw [show runHandler Handler.message st c m now = handleMessage st c m now from rfl,
      handleMessage_fst]
    exact h
  | reaction =>
    rw [show runHandler Handler.reaction st c m now = handleReaction st c m now from rfl,
      handleReaction_fst]
    exact h
  | presence_request =>
    rw [show runHandler Handler.presence_request st c m now = handlePresenceRequest st c m now from rfl,
      handlePresenceRequest_fst]
    exact h
  | typing => exact WF_handleTyping st c m now h

theorem WF_routeData (st : State) (c : ConnId) (m : Msg) (now : Int)
    (h : WF st) : WF (routeData st c m now).1 := by
  unfold routeData
  cases lookupHandler (propKey m.type) with
  | handler hd => exact WF_runHandler hd st c m now h
  | inherited => exact h
  | undef => exact h

theorem WF_route (st : State) (c : ConnId) (inb : Inbound) (now : Int)
    (h : WF st) : WF (route st c inb now).1 := by
  cases inb with
  | malformed => exact h
  | prim v =>
    unfold route
    dsimp only
    split
    · exact WF_routeData _ _ _ _ h
    · exact h
  | obj m => exact WF_routeData _ _ _ _ h

theorem WF_leaveFold (l : List String) (st : State) (c : ConnId) (h : WF st) :
    WF (l.foldl (fun s room => (leaveRoom s c room).1) st) := by
  induction l generalizing st with
  | nil => exact h
  | cons r t ih =>
    simp only [List.foldl_cons]
    exact ih _ (WF_leaveRoom _ _ _ h)

theorem WF_disconnect (st : State) (c : ConnId) (h : WF st) :
    WF (disconnect st c).1 := by
  rw [disconnect_fst]
  exact WF_leaveFold _ _ _ (WF_updConn_keep _ _ _ (fun cn => rfl) h)

theorem WF_applyOp (st : State) (op : Op) (h : WF st) : WF (applyOp st op).1 := by
  cases op with
  | recv c inb now => exact WF_route st c inb now h
  | close c => exact WF_disconnect st c h

theorem WF_initState : WF initState := by
  refine ⟨?_, ?_, ?_, ?_, ?_, ?_⟩
  · simp [initState, KeysNodup]
  · simp [initState, KeysNodup]
  · intro r mem hmem
    simp [initState, alookup] at hmem
  · intro r ts hts
    simp [initState, alookup] at hts
  · intro cc
    simp [initState, initConn]
  · intro cc r
    simp [initState, initConn, roomMembers, alookup]

theorem Reachable.wf {st : State} (h : Reachable st) : WF st := by
  induction h with
  | init => exact WF_initState
  | step st op hprev ih => exact WF_applyOp st op ih

end Chat2

namespace Chat2

theorem joinSt_conns_username (st : State) (c : ConnId) (room : String)
    (cc : ConnId) :
    ((joinSt st c room).conns cc).username = (st.conns cc).username := by
  by_cases hc : cc = c
  · subst hc
    rw [joinSt_conns_self]
  · rw [joinSt_conns_ne _ _ _ _ hc]

theorem mem_of_eraseUser {ts : List String} {u : String} {u0 : Option String}
    (h : u ∈ eraseUser ts u0) : u ∈ ts := by
  cases u0 with
  | none => exact h
  | some name => exact List.mem_of_mem_erase h

theorem TSI_joinSt (st : State) (c : ConnId) (room : String)
    (h : TypingSubsetInv st) : TypingSubsetInv (joinSt st c room) := by
  intro room0 u hu
  have hu' : u ∈ typingOf st room0 := hu
  obtain ⟨cc, hm, hn⟩ := h room0 u hu'
  refine ⟨cc, ?_, ?_⟩
  · by_cases hr : room0 = room
    · subst hr
      rw [roomMembers_joinSt_self, mem_sadd]
      exact Or.inl hm
    · rw [roomMembers_joinSt_ne _ _ _ _ hr]
      exact hm
  · rw [joinSt_conns_username]
    exact hn

theorem TSI_setUsername (st : State) (c : ConnId) (s : String)
    (hstable : (st.conns c).username = none ∨ (st.conns c).username = some s)
    (h : TypingSubsetInv st) :
    TypingSubsetInv (updConn st c (fun cn => { cn with username := some s })) := by
  intro room0 u hu
  have hu' : u ∈ typingOf st room0 := hu
  obtain ⟨cc, hm, hn⟩ := h room0 u hu'
  refine ⟨cc, hm, ?_⟩
  by_cases hc : cc = c
  · subst hc
    rw [updConn_conns_self]
    rcases hstable with hs | hs
    · rw [hs] at hn
      cases hn
    · rw [hs] at hn
      cases hn
      exact hs ▸ rfl
  · rw [updConn_conns_ne _ _ _ _ hc]
    exact hn

theorem TSI_updConn_keepUser (st : State) (c : ConnId) (f : Conn → Conn)
    (hf : ∀ cn, (f cn).username = cn.username)
    (h : TypingSubsetInv st) : TypingSubsetInv (updConn st c f) := by
  intro room0 u hu
  have hu' : u ∈ typingOf st room0 := hu
  obtain ⟨cc, hm, hn⟩ := h room0 u hu'
  refine ⟨cc, hm, ?_⟩
  by_cases hc : cc = c
  · subst hc
    rw [updConn_conns_self, hf]
    exact hn
  · rw [updConn_conns_ne _ _ _ _ hc]
    exact hn

theorem TSI_leaveRoom (st : State) (c : ConnId) (room : String)
    (hwf : WF st) (h : TypingSubsetInv st) :
    TypingSubsetInv (leaveRoom st c room).1 := by
  obtain ⟨h1, h2, h3, h4, h5, h6⟩ := hwf
  intro room0 u hu
  have hconn : ∀ cc, ((leaveRoom st c room).1.conns cc).username = (st.conns cc).username := by
    intro cc
    rw [leaveRoom_fst_conns]
    exact leaveDirSt_conns_username st c room cc
  have build : ∀ cc, cc ∈ roomMembers st room0 → ¬(room0 = room ∧ cc = c) →
      (st.conns cc).username = some u →
      ∃ cc2, cc2 ∈ roomMembers (leaveRoom st c room).1 room0 ∧
        ((leaveRoom st c room).1.conns cc2).username = some u := by
    intro cc hcm hnp hname
    refine ⟨cc, ?_, ?_⟩
    · have hmm : roomMembers (leaveRoom st c room).1 room0 =
          roomMembers (leaveDirSt st c room) room0 := by
        simp only [roomMembers, leaveRoom_fst_rooms]
      rw [hmm, mem_roomMembers_leaveDirSt st c room h3 cc room0]
      exact ⟨hcm, hnp⟩
    · rw [hconn cc]
      exact hname
  have hu0 : u ∈ (alookup ((match alookup st.typingUsers room with
       | none => st.typingUsers
       | some ts =>
         if eraseUser ts ((st.conns c).username) = [] then adel st.typingUsers room
         else aset st.typingUsers room (eraseUser ts ((st.conns c).username)))) room0).getD [] := by
    have : typingOf (leaveRoom st c room).1 room0 =
        (alookup ((leaveRoom st c room).1.typingUsers) room0).getD [] := rfl
    rw [this, leaveRoom_fst_typingUsers] at hu
    exact hu
  cases ht0 : alookup st.typingUsers room with
  | none =>
    rw [ht0] at hu0
    dsimp only at hu0
    obtain ⟨cc, hcm, hname⟩ := h room0 u hu0
    refine build cc hcm ?_ hname
    rintro ⟨rfl, rfl⟩
    rw [show (alookup st.typingUsers room0) = none from ht0] at hu0
    simp at hu0
  | some ts0 =>
    rw [ht0] at hu0
    dsimp only at hu0
    by_cases he : eraseUser ts0 ((st.conns c).username) = []
    · rw [if_pos he] at hu0
      by_cases hr : room0 = room
      · subst hr
        rw [alookup_adel_self] at hu0
        simp at hu0
      · rw [alookup_adel_ne _ _ _ hr] at hu0
        obtain ⟨cc, hcm, hname⟩ := h room0 u hu0
        refine build cc hcm ?_ hname
        rintro ⟨rfl, rfl⟩
        exact hr rfl
    · rw [if_neg he] at hu0
      by_cases hr : room0 = room
      · subst hr
        rw [alookup_aset_self, Option.getD_some] at hu0
        have hu1 : u ∈ ts0 := mem_of_eraseUser hu0
        have hu2 : u ∈ typingOf st room0 := by
          simp [typingOf, ht0, hu1]
        obtain ⟨cc, hcm, hname⟩ := h room0 u hu2
        refine build cc hcm ?_ hname
        rintro ⟨-, rfl⟩
        cases huser : (st.conns cc).username with
        | none =>
          rw [huser] at hname
          cases hname
        | some un =>
          rw [huser] at hname
          cases hname
          rw [huser] at hu0
          exact (h4 room0 ts0 ht0).not_mem_erase hu0
      · rw [alookup_aset_ne _ _ _ _ hr] at hu0
        obtain ⟨cc, hcm, hname⟩ := h room0 u hu0
        refine build cc hcm ?_ hname
        rintro ⟨rfl, rfl⟩
        exact hr rfl

end Chat2

namespace Chat2

theorem TSI_setTypingEntry (st : State) (room : String) (ts' : List String)
    (hts : ∀ u, u ∈ ts' →
      ∃ cc, cc ∈ roomMembers st room ∧ (st.conns cc).username = some u)
    (h : TypingSubsetInv st) :
    TypingSubsetInv { st with typingUsers := aset st.typingUsers room ts' } := by
  intro room0 u hu
  have hu0 : u ∈ (alookup (aset st.typingUsers room ts') room0).getD [] := hu
  by_cases hr : room0 = room
  · subst hr
    rw [alookup_aset_self, Option.getD_some] at hu0
    exact hts u hu0
  · rw [alookup_aset_ne _ _ _ _ hr] at hu0
    exact h room0 u hu0

theorem TSI_handleTyping (st : State) (c : ConnId) (m : Msg) (now : Int)
    (hwf : WF st) (h : TypingSubsetInv st) :
    TypingSubsetInv (handleTyping st c m now).1 := by
  obtain ⟨h1, h2, h3, h4, h5, h6⟩ := hwf
  unfold handleTyping
  cases requireFields st c (requiredPairs Handler.typing m) with
  | none =>
    dsimp only
    cases huser : (st.conns c).username with
    | none => exact h
    | some user =>
      dsimp only
      by_cases hue : user = ("")
      · rw [if_pos hue]
        exact h
      · rw [if_neg hue]
        by_cases hmem : strOf m.room ∈ (st.conns c).crooms
        · rw [if_pos hmem]
          dsimp only
          refine TSI_setTypingEntry st _ _ ?_ h
          intro u hu
          have hcmem : c ∈ roomMembers st (strOf m.room) := (h6 c (strOf m.room)).2 hmem
          split at hu
          · rw [mem_sadd] at hu
            rcases hu with hu | rfl
            · exact h _ u hu
            · exact ⟨c, hcmem, huser⟩
          · exact h _ u (List.mem_of_mem_erase hu)
        · rw [if_neg hmem]
          exact h
  | some errs => exact h

theorem ownHandler_eq_join {k : String} (h : ownHandler k = some Handler.join) :
    k = (("join")) := by
  unfold ownHandler at h
  split_ifs at h <;> simp_all

theorem missing_nil_join {m : Msg}
    (h : missingOfPairs (requiredPairs Handler.join m) = []) :
    fieldValid m.room = true ∧ fieldValid m.sender = true := by
  by_cases h1 : fieldValid m.room <;> by_cases h2 : fieldValid m.sender <;>
    simp [missingOfPairs, requiredPairs, h1, h2] at h ⊢

theorem TSI_handleJoin (st : State) (c : ConnId) (m : Msg) (now : Int)
    (hstable : missingOfPairs (requiredPairs Handler.join m) = [] →
      (st.conns c).username = none ∨ (st.conns c).username = some (strOf m.sender))
    (h : TypingSubsetInv st) : TypingSubsetInv (handleJoin st c m now).1 := by
  unfold handleJoin requireFields
  by_cases hmiss : missingOfPairs (requiredPairs Handler.join m) = []
  · rw [if_pos hmiss]
    dsimp only
    exact TSI_joinSt _ _ _ (TSI_setUsername st c _ (hstable hmiss) h)
  · rw [if_neg hmiss]
    exact h

theorem TSI_handleLeave (st : State) (c : ConnId) (m : Msg) (now : Int)
    (hwf : WF st) (h : TypingSubsetInv st) :
    TypingSubsetInv (handleLeave st c m now).1 := by
  unfold handleLeave
  cases requireFields st c (requiredPairs Handler.leave m) with
  | none =>
    dsimp only
    exact TSI_leaveRoom _ _ _ hwf h
  | some errs => exact h

theorem TSI_routeData (st : State) (c : ConnId) (m : Msg) (now : Int)
    (hj : lookupHandler (propKey m.type) = HandlerLookup.handler Handler.join →
      missingOfPairs (requiredPairs Handler.join m) = [] →
      (st.conns c).username = none ∨ (st.conns c).username = some (strOf m.sender))
    (hwf : WF st) (h : TypingSubsetInv st) :
    TypingSubsetInv (routeData st c m now).1 := by
  unfold routeData
  cases hl : lookupHandler (propKey m.type) with
  | handler hd =>
    dsimp only
    cases hd with
    | join => exact TSI_handleJoin st c m now (hj hl) h
    | leave => exact TSI_handleLeave st c m now hwf h
    | message =>
      rw [show runHandler Handler.message st c m now = handleMessage st c m now from rfl,
        handleMessage_fst]
      exact h
    | reaction =>
      rw [show runHandler Handler.reaction st c m now = handleReaction st c m now from rfl,
        handleReaction_fst]
      exact h
    | presence_request =>
      rw [show runHandler Handler.presence_request st c m now = handlePresenceRequest st c m now from rfl,
        handlePresenceRequest_fst]
      exact h
    | typing => exact TSI_handleTyping st c m now hwf h
  | inherited => exact h
  | undef => exact h

theorem TSI_route (st : State) (c : ConnId) (inb : Inbound) (now : Int)
    (hst : stableOp st (Op.recv c inb now) = true)
    (hwf : WF st) (h : TypingSubsetInv st) :
    TypingSubsetInv (route st c inb now).1 := by
  cases inb with
  | malformed => exact h
  | prim v =>
    unfold route
    dsimp only
    split
    · refine TSI_routeData st c {} now ?_ hwf h
      intro hl
      exact absurd hl (by decide)
    · exact h
  | obj m =>
    refine TSI_routeData st c m now ?_ hwf h
    intro hl hmiss
    have hown : ownHandler (propKey m.type) = some Handler.join := by
      unfold lookupHandler at hl
      cases ho : ownHandler (propKey m.type) with
      | some hh =>
        rw [ho] at hl
        cases hl
        rfl
      | none =>
        rw [ho] at hl
        dsimp only at hl
        split at hl <;> cases hl
    have hkey : propKey m.type = (("join")) := ownHandler_eq_join hown
    obtain ⟨hrv, hsv⟩ := missing_nil_join hmiss
    have hcond : (propKey m.type == (("join")) && fieldValid m.room && fieldValid m.sender) = true := by
      simp [hkey, hrv, hsv]
    have hst2 : (match (st.conns c).username with
        | none => true
        | some u => u == strOf m.sender) = true := by
      rw [show stableOp st (Op.recv c (Inbound.obj m) now)
          = (if (propKey m.type == (("join")) && fieldValid m.room && fieldValid m.sender) = true then
               (match (st.conns c).username with
                | none => true
                | some u => u == strOf m.sender)
             else true) from rfl, if_pos hcond] at hst
      exact hst
    cases hu : (st.conns c).username with
    | none => exact Or.inl rfl
    | some u =>
      rw [hu] at hst2
      right
      have hequ : u = strOf m.sender := by simpa using hst2
      rw [hequ]

theorem TSI_leaveFold (l : List String) (st : State) (c : ConnId)
    (hwf : WF st) (h : TypingSubsetInv st) :
    TypingSubsetInv (l.foldl (fun s room => (leaveRoom s c room).1) st) := by
  induction l generalizing st with
  | nil => exact h
  | cons r t ih =>
    simp only [List.foldl_cons]
    exact ih _ (WF_leaveRoom _ _ _ hwf) (TSI_leaveRoom _ _ _ hwf h)

theorem TSI_disconnect (st : State) (c : ConnId) (hwf : WF st)
    (h : TypingSubsetInv st) : TypingSubsetInv (disconnect st c).1 := by
  rw [disconnect_fst]
  exact TSI_leaveFold _ _ _ (WF_updConn_keep _ _ _ (fun cn => rfl) hwf)
    (TSI_updConn_keepUser _ _ _ (fun cn => rfl) h)

theorem TSI_applyOp (st : State) (op : Op) (hst : stableOp st op = true)
    (hwf : WF st) (h : TypingSubsetInv st) : TypingSubsetInv (applyOp st op).1 := by
  cases op with
  | recv c inb now => exact TSI_route st c inb now hst hwf h
  | close c => exact TSI_disconnect st c hwf h

theorem TSI_initState : TypingSubsetInv initState := by
  intro room u hu
  simp [typingOf, initState, alookup] at hu

theorem ReachableStable.toReachable {st : State} (h : ReachableStable st) :
    Reachable st := by
  induction h with
  | init => exact Reachable.init
  | step st op hprev hstable ih => exact Reachable.step st op ih

theorem ReachableStable.tsi {st : State} (h : ReachableStable st) :
    TypingSubsetInv st := by
  induction h with
  | init => exact TSI_initState
  | step st op hprev hstable ih =>
    exact TSI_applyOp st op hstable (Reachable.wf (ReachableStable.toReachable hprev)) ih

end Chat2

namespace Chat2

theorem State.ext' (st1 st2 : State) (hc : st1.conns = st2.conns)
    (hr : st1.rooms = st2.rooms) (ht : st1.typingUsers = st2.typingUsers) :
    st1 = st2 := by
  cases st1
  cases st2
  cases hc
  cases hr
  cases ht
  rfl

theorem Reachable.execOps (st : State) (h : Reachable st) (ops : List Op) :
    Reachable (execOps st ops) := by
  induction ops generalizing st with
  | nil => exact h
  | cons o t ih => exact ih _ (Reachable.step st o h)

theorem joinSt_conns_isOpen (st : State) (c : ConnId) (room : String) (cc : ConnId) :
    ((joinSt st c room).conns cc).isOpen = (st.conns cc).isOpen := by
  by_cases hc : cc = c
  · subst hc
    rw [joinSt_conns_self]
  · rw [joinSt_conns_ne _ _ _ _ hc]

theorem leaveDirSt_conns_self (st : State) (c : ConnId) (room : String) :
    (leaveDirSt st c room).conns c =
      { st.conns c with crooms := ((st.conns c).crooms).erase room } := by
  unfold leaveDirSt
  cases alookup st.rooms room with
  | none => simp [updConn]
  | some mem =>
    dsimp only
    split <;> simp [updConn]

theorem leaveRoom_conns_username (st : State) (c : ConnId) (room : String)
    (cc : ConnId) :
    ((leaveRoom st c room).1.conns cc).username = (st.conns cc).username := by
  rw [leaveRoom_fst_conns]
  exact leaveDirSt_conns_username st c room cc

theorem leaveRoom_conns_isOpen (st : State) (c : ConnId) (room : String)
    (cc : ConnId) :
    ((leaveRoom st c room).1.conns cc).isOpen = (st.conns cc).isOpen := by
  rw [leaveRoom_fst_conns]
  exact leaveDirSt_conns_isOpen st c room cc

theorem broadcast_payload {st : State} {room : String} {payload : Event}
    {excl : Option ConnId} {p : ConnId × Event}
    (hp : p ∈ broadcastToRoom st room payload excl) : p.2 = payload := by
  unfold broadcastToRoom at hp
  cases hr : alookup st.rooms room with
  | none =>
    rw [hr] at hp
    cases hp
  | some mem =>
    rw [hr] at hp
    dsimp only at hp
    rw [List.mem_map] at hp
    obtain ⟨cl, hcl, rfl⟩ := hp
    rfl

theorem broadcast_excl_ne (st : State) (room : String) (payload : Event)
    (c : ConnId) :
    ∀ p ∈ broadcastToRoom st room payload (some c), p.1 ≠ c := by
  intro p hp
  unfold broadcastToRoom at hp
  cases hr : alookup st.rooms room with
  | none =>
    rw [hr] at hp
    cases hp
  | some mem =>
    rw [hr] at hp
    dsimp only at hp
    rw [List.mem_map] at hp
    obtain ⟨cl, hcl, rfl⟩ := hp
    dsimp only
    rw [List.mem_filter] at hcl
    have hcond := hcl.2
    simp only [Bool.and_eq_true, Bool.not_eq_true'] at hcond
    intro hceq
    rw [hceq] at hcond
    simp at hcond

theorem broadcastPresence_none (st : State) (room : String)
    (h : alookup st.rooms room = none) : broadcastPresence st room = [] := by
  unfold broadcastPresence
  rw [h]

theorem leaveRoom_out_decomp (st : State) (c : ConnId) (room : String) :
    (leaveRoom st c room).2 =
      (match alookup st.typingUsers room with
       | none => []
       | some ts =>
         if eraseUser ts ((st.conns c).username) = [] then []
         else broadcastToRoom (leaveRoom st c room).1 room
           (Event.typing room (eraseUser ts ((st.conns c).username))) none)
      ++ broadcastToRoom (leaveRoom st c room).1 room
          (Event.user_left room ((st.conns c).username)) (some c)
      ++ send1 (leaveRoom st c room).1 c (Event.system ((("Left room: ")) ++ room))
      ++ broadcastPresence (leaveRoom st c room).1 room := by
  unfold leaveRoom
  dsimp only
  rw [leaveDirSt_typingUsers]
  cases ht0 : alookup st.typingUsers room with
  | none => rfl
  | some ts =>
    dsimp only
    by_cases he : eraseUser ts ((st.conns c).username) = []
    · rw [if_pos he, if_pos he]
    · rw [if_neg he, if_neg he]
      rfl

theorem runHandler_invalid (hd : Handler) (st : State) (c : ConnId) (m : Msg)
    (now : Int) (hmiss : missingOfPairs (requiredPairs hd m) ≠ []) :
    runHandler hd st c m now =
      (st, send1 st c (Event.error ((("Missing or invalid fields: "))
        ++ String.intercalate ((", ")) (missingOfPairs (requiredPairs hd m))))) := by
  cases hd with
  | join =>
    show handleJoin st c m now = _
    unfold handleJoin requireFields
    rw [if_neg hmiss]
  | leave =>
    show handleLeave st c m now = _
    unfold handleLeave requireFields
    rw [if_neg hmiss]
  | message =>
    show handleMessage st c m now = _
    unfold handleMessage requireFields
    rw [if_neg hmiss]
  | reaction =>
    show handleReaction st c m now = _
    unfold handleReaction requireFields
    rw [if_neg hmiss]
  | presence_request =>
    show handlePresenceRequest st c m now = _
    unfold handlePresenceRequest requireFields
    rw [if_neg hmiss]
  | typing =>
    show handleTyping st c m now = _
    unfold handleTyping requireFields
    rw [if_neg hmiss]

theorem unknown_ne_invalid (s : String) :
    ((("Unknown message type: ")) ++ s) ≠ (("Invalid JSON")) := by
  intro hcon
  have hlen := congrArg String.length hcon
  rw [String.length_append] at hlen
  rw [show (("Unknown message type: ")).length = 22 from by decide,
    show (("Invalid JSON")).length = 12 from by decide] at hlen
  omega

theorem missing_ne_invalid (s : String) :
    ((("Missing or invalid fields: ")) ++ s) ≠ (("Invalid JSON")) := by
  intro hcon
  have hlen := congrArg String.length hcon
  rw [String.length_append] at hlen
  rw [show (("Missing or invalid fields: ")).length = 27 from by decide,
    show (("Invalid JSON")).length = 12 from by decide] at hlen
  omega

theorem join_sys_mem (st : State) (c : ConnId) (m : Msg) (now : Int)
    (hmiss : missingOfPairs (requiredPairs Handler.join m) = [])
    (hopen : (st.conns c).isOpen = true) :
    (c, Event.system ((("Joined room: ")) ++ strOf m.room)) ∈ (handleJoin st c m now).2 := by
  unfold handleJoin requireFields
  rw [if_pos hmiss]
  dsimp only
  unfold joinRoom
  dsimp only
  rw [List.mem_append]
  left
  rw [List.mem_append]
  right
  have hop : ((joinSt (updConn st c fun cn => { cn with username := some (strOf m.sender) })
      c (strOf m.room)).conns c).isOpen = true := by
    rw [joinSt_conns_isOpen, updConn_conns_self]
    exact hopen
  unfold send1
  rw [if_pos hop]
  exact List.mem_singleton.mpr rfl

theorem leave_sys_mem (st : State) (c : ConnId) (room : String)
    (hopen : (st.conns c).isOpen = true) :
    (c, Event.system ((("Left room: ")) ++ room)) ∈ (leaveRoom st c room).2 := by
  rw [leaveRoom_out_decomp]
  rw [List.mem_append]
  left
  rw [List.mem_append]
  right
  have hop : ((leaveRoom st c room).1.conns c).isOpen = true := by
    rw [leaveRoom_conns_isOpen]
    exact hopen
  unfold send1
  rw [if_pos hop]
  exact List.mem_singleton.mpr rfl

theorem leaveRoom_noop (st : State) (c : ConnId) (room : String)
    (h1 : KeysNodup st.rooms) (h2 : KeysNodup st.typingUsers)
    (hmem : ∀ mem, alookup st.rooms room = some mem → mem ≠ [] ∧ c ∉ mem)
    (hcr : room ∉ (st.conns c).crooms)
    (hts : ∀ ts, alookup st.typingUsers room = some ts →
      ts ≠ [] ∧ eraseUser ts ((st.conns c).username) = ts) :
    (leaveRoom st c room).1 = st := by
  apply State.ext'
  · rw [leaveRoom_fst_conns]
    funext cc
    by_cases hc : cc = c
    · subst hc
      rw [leaveDirSt_conns_self, List.erase_of_not_mem hcr]
    · rw [leaveDirSt_conns_ne _ _ _ _ hc]
  · rw [leaveRoom_fst_rooms, leaveDirSt_rooms]
    cases hr0 : alookup st.rooms room with
    | none => rfl
    | some mem =>
      dsimp only
      obtain ⟨hne, hnm⟩ := hmem mem hr0
      rw [List.erase_of_not_mem hnm, if_neg hne]
      exact aset_self h1 hr0
  · rw [leaveRoom_fst_typingUsers]
    cases ht0 : alookup st.typingUsers room with
    | none => rfl
    | some ts =>
      dsimp only
      obtain ⟨hne, her⟩ := hts ts ht0
      rw [her, if_neg hne]
      exact aset_self h2 ht0

end Chat2

namespace Chat2

/-- C1: in every reachable server state, a room name is a key of the room
directory if and only if its member set is non-empty — join creates the set
on first join and leave deletes the entry when it empties. -/
theorem claim_C1 (st : State) (h : Reachable st) (r : String) :
    (alookup st.rooms r).isSome = true ↔ roomMembers st r ≠ [] := by
  obtain ⟨-, -, h3, -⟩ := Reachable.wf h
  constructor
  · intro hs
    cases hr : alookup st.rooms r with
    | none =>
      rw [hr] at hs
      cases hs
    | some mem =>
      have hne := (h3 r mem hr).1
      simp [roomMembers, hr, hne]
  · intro hne
    cases hr : alookup st.rooms r with
    | none => simp [roomMembers, hr] at hne
    | some mem => simp [hr]

/-- C1 witness: the invariant instantiated at a concrete reachable state in
which room r is occupied by one connection. -/
theorem claim_C1_wit :
    Reachable oneUserSt ∧
      ((alookup oneUserSt.rooms (("r"))).isSome = true ↔
        roomMembers oneUserSt (("r")) ≠ []) := by
  have hre : Reachable oneUserSt := Reachable.execOps initState Reachable.init _
  exact ⟨hre, claim_C1 oneUserSt hre (("r"))⟩

/-- C2 counterexample: after alice joins and types in room r and then
re-joins with sender bob, the room's typing set still contains alice while
no current member of r carries the display identity alice — so the typing
set is not a subset of the members' display identities. -/
theorem claim_C2_cex :
    Reachable renameSt ∧
      (("alice")) ∈ typingOf renameSt (("r")) ∧
      (∀ cc ∈ roomMembers renameSt (("r")),
        (renameSt.conns cc).username ≠ some (("alice"))) := by
  refine ⟨Reachable.execOps initState Reachable.init _, ?_, ?_⟩ <;> decide

/-- C2 (amended): provided no join ever changes a connection's display
identity once set (every step is identity-stable), each room's typing set is
a subset of the display identities of that room's current members, and
leaving a room removes the leaver's current display identity from that
room's typing set. -/
theorem claim_C2 (st : State) (h : ReachableStable st) :
    (∀ room u, u ∈ typingOf st room →
      ∃ cc, cc ∈ roomMembers st room ∧ (st.conns cc).username = some u) ∧
    (∀ c room u, (st.conns c).username = some u →
      u ∉ typingOf (leaveRoom st c room).1 room) := by
  refine ⟨h.tsi, ?_⟩
  obtain ⟨-, -, -, h4, -⟩ := Reachable.wf h.toReachable
  intro c room u hname hin
  have hrw : typingOf (leaveRoom st c room).1 room =
      (alookup ((leaveRoom st c room).1.typingUsers) room).getD [] := rfl
  rw [hrw, leaveRoom_fst_typingUsers] at hin
  cases ht0 : alookup st.typingUsers room with
  | none =>
    rw [ht0] at hin
    dsimp only at hin
    rw [ht0] at hin
    simp at hin
  | some ts =>
    rw [ht0] at hin
    dsimp only at hin
    by_cases he : eraseUser ts ((st.conns c).username) = []
    · rw [if_pos he, alookup_adel_self] at hin
      simp at hin
    · rw [if_neg he, alookup_aset_self, Option.getD_some] at hin
      rw [hname] at hin
      exact (h4 room ts ht0).not_mem_erase hin

/-- C2 witness: the amended invariant at a concrete identity-stable state in
which alice is typing in room r. -/
theorem claim_C2_wit :
    ReachableStable stableSt ∧
      ((∀ room u, u ∈ typingOf stableSt room →
        ∃ cc, cc ∈ roomMembers stableSt room ∧ (stableSt.conns cc).username = some u) ∧
      (∀ c room u, (stableSt.conns c).username = some u →
        u ∉ typingOf (leaveRoom stableSt c room).1 room)) := by
  have h1 : ReachableStable (applyOp initState
      (Op.recv 0 (joinInb (("r")) (("alice"))) 1)).1 :=
    ReachableStable.step _ _ ReachableStable.init (by decide)
  have h2 : ReachableStable (applyOp
      (applyOp initState (Op.recv 0 (joinInb (("r")) (("alice"))) 1)).1
      (Op.recv 0 (typingInb (("r")) true) 2)).1 :=
    ReachableStable.step _ _ h1 (by decide)
  have hrs : ReachableStable stableSt := h2
  exact ⟨hrs, claim_C2 stableSt hrs⟩

/-- C3 counterexample: after alice joins room r and sends a typing toggle
with typing=false, the typing directory holds an entry for r whose set is
empty — the entry was created by the toggle and not deleted. -/
theorem claim_C3_cex :
    Reachable emptyTypingSt ∧
      alookup emptyTypingSt.typingUsers (("r")) = some [] := by
  refine ⟨Reachable.execOps initState Reachable.init _, ?_⟩
  decide

/-- C3 (amended): only the leave path implements the eager-delete policy:
when a typing entry exists, leave erases the leaver's display identity and
deletes the entry exactly when the erased set is empty, otherwise storing
the erased set; the typing toggle itself can leave an empty entry behind. -/
theorem claim_C3 (st : State) (c : ConnId) (room : String) (ts : List String)
    (hts : alookup st.typingUsers room = some ts) :
    alookup (leaveRoom st c room).1.typingUsers room =
      (if eraseUser ts ((st.conns c).username) = [] then none
       else some (eraseUser ts ((st.conns c).username))) := by
  rw [leaveRoom_fst_typingUsers, hts]
  dsimp only
  by_cases he : eraseUser ts ((st.conns c).username) = []
  · rw [if_pos he, if_pos he, alookup_adel_self]
  · rw [if_neg he, if_neg he, alookup_aset_self]

/-- C3 witness: the amended deletion policy at a concrete state in which
alice is the sole typing user of room r and then leaves it. -/
theorem claim_C3_wit :
    alookup stableSt.typingUsers (("r")) = some [(("alice"))] ∧
      alookup (leaveRoom stableSt 0 (("r"))).1.typingUsers (("r")) =
        (if eraseUser [(("alice"))] ((stableSt.conns 0).username) = [] then none
         else some (eraseUser [(("alice"))] ((stableSt.conns 0).username))) :=
  ⟨by decide, claim_C3 stableSt 0 (("r")) [(("alice"))] (by decide)⟩

end Chat2

namespace Chat2

/-- C4 counterexample: alice, a member of room r, sends a valid message that
supplies the explicit timestamp 0; the broadcast carries the server time
1700, not the supplied 0, because the default is computed with `||` and 0 is
falsy. -/
theorem claim_C4_cex :
    Reachable oneUserSt ∧
      (route oneUserSt 0 (messageInb (("r")) (("hi")) (some (JValue.num 0))) 1700).2 =
        [(0, Event.message (("r")) (some (("alice"))) (("hi"))
          (JValue.num 1700) JValue.null)] ∧
      JValue.num 1700 ≠ JValue.num 0 := by
  refine ⟨Reachable.execOps initState Reachable.init _, ?_, ?_⟩ <;> decide

/-- C4 (amended): a valid message from a room member broadcasts a message
event whose timestamp is `timestamp || now`: a truthy supplied timestamp is
preserved unchanged, while an omitted or falsy one (0, empty string, false,
null) is replaced by the server's current time. -/
theorem claim_C4 (st : State) (c : ConnId) (m : Msg) (now : Int)
    (hmiss : missingOfPairs (requiredPairs Handler.message m) = [])
    (hmem : strOf m.room ∈ (st.conns c).crooms) :
    (handleMessage st c m now).2 =
      broadcastToRoom st (strOf m.room)
        (Event.message (strOf m.room) ((st.conns c).username) (strOf m.content)
          (jsOr m.timestamp (JValue.num now)) (jsOr m.reply JValue.null)) none ∧
    (∀ v, m.timestamp = some v → v.truthy = true →
      jsOr m.timestamp (JValue.num now) = v) ∧
    ((m.timestamp = none ∨ ∃ v, m.timestamp = some v ∧ v.truthy = false) →
      jsOr m.timestamp (JValue.num now) = JValue.num now) := by
  refine ⟨?_, ?_, ?_⟩
  · unfold handleMessage requireFields
    rw [if_pos hmiss]
    dsimp only
    rw [if_pos hmem]
  · intro v hv htr
    rw [hv]
    simp [jsOr, htr]
  · rintro (hv | ⟨v, hv, htr⟩)
    · rw [hv]
      rfl
    · rw [hv]
      simp [jsOr, htr]

/-- C4 witness: the amended behavior at a concrete reachable state, with the
message payload that carries timestamp 0. -/
theorem claim_C4_wit :
    missingOfPairs (requiredPairs Handler.message mC4) = [] ∧
      strOf mC4.room ∈ (oneUserSt.conns 0).crooms ∧
      ((handleMessage oneUserSt 0 mC4 1700).2 =
        broadcastToRoom oneUserSt (strOf mC4.room)
          (Event.message (strOf mC4.room) ((oneUserSt.conns 0).username)
            (strOf mC4.content) (jsOr mC4.timestamp (JValue.num 1700))
            (jsOr mC4.reply JValue.null)) none ∧
      (∀ v, mC4.timestamp = some v → v.truthy = true →
        jsOr mC4.timestamp (JValue.num 1700) = v) ∧
      ((mC4.timestamp = none ∨ ∃ v, mC4.timestamp = some v ∧ v.truthy = false) →
        jsOr mC4.timestamp (JValue.num 1700) = JValue.num 1700)) :=
  ⟨by decide, by decide, claim_C4 oneUserSt 0 mC4 1700 (by decide) (by decide)⟩

/-- C5: the dispatch `messageHandlers[data.type]` finds truthy properties
inherited from Object.prototype.  On the inbound object with type
"constructor" — which is none of the six handler keys — the router calls the
inherited value instead of replying with an unknown-type error: no event is
sent at all and the server state is unchanged, contradicting the documented
unknown-type error path. -/
theorem claim_C5_bug :
    ownHandler (("constructor")) = none ∧
    lookupHandler (("constructor")) = HandlerLookup.inherited ∧
    route initState 0 (Inbound.obj { type := some (JValue.str (("constructor"))) }) 0
      = (initState, []) := by
  refine ⟨by decide, by decide, rfl⟩

/-- C6: a message, reaction or presence_request event whose required fields
for that type are valid but whose sender is not a member of the named room
is silently dropped: the handler returns the state unchanged and sends
nothing.  Each handler's conclusion assumes only its own required fields. -/
theorem claim_C6 (st : State) (c : ConnId) (m : Msg) (now : Int)
    (hnm : strOf m.room ∉ (st.conns c).crooms) :
    (fieldValid m.room = true → fieldValid m.content = true →
      handleMessage st c m now = (st, [])) ∧
    (fieldValid m.room = true → fieldValid m.target = true →
      fieldValid m.emoji = true → handleReaction st c m now = (st, [])) ∧
    (fieldValid m.room = true → handlePresenceRequest st c m now = (st, [])) := by
  refine ⟨?_, ?_, ?_⟩
  · intro hroom hcontent
    have hm1 : missingOfPairs (requiredPairs Handler.message m) = [] := by
      simp [missingOfPairs, requiredPairs, hroom, hcontent]
    unfold handleMessage requireFields
    rw [if_pos hm1]
    dsimp only
    rw [if_neg hnm]
  · intro hroom htarget hemoji
    have hm2 : missingOfPairs (requiredPairs Handler.reaction m) = [] := by
      simp [missingOfPairs, requiredPairs, hroom, htarget, hemoji]
    unfold handleReaction requireFields
    rw [if_pos hm2]
    dsimp only
    rw [if_neg hnm]
  · intro hroom
    have hm3 : missingOfPairs (requiredPairs Handler.presence_request m) = [] := by
      simp [missingOfPairs, requiredPairs, hroom]
    unfold handlePresenceRequest requireFields
    rw [if_pos hm3]
    dsimp only
    rw [if_neg hnm]

/-- C6 witness: the silent drop at the initial state, where connection 0 is
not a member of room general — exercised both on the spec's scenario payload
(a message with only type, room and content) and on a reaction payload. -/
theorem claim_C6_wit :
    strOf mC6msg.room ∉ (initState.conns 0).crooms ∧
    fieldValid mC6msg.room = true ∧ fieldValid mC6msg.content = true ∧
    handleMessage initState 0 mC6msg 7 = (initState, []) ∧
    handlePresenceRequest initState 0 mC6msg 7 = (initState, []) ∧
    handleReaction initState 0 mC6 7 = (initState, []) :=
  ⟨by decide, by decide, by decide,
    (claim_C6 initState 0 mC6msg 7 (by decide)).1 (by decide) (by decide),
    (claim_C6 initState 0 mC6msg 7 (by decide)).2.2 (by decide),
    (claim_C6 initState 0 mC6 7 (by decide)).2.1 (by decide) (by decide) (by decide)⟩

/-- C7: whenever a handler's required-field validation fails, the handler
performs exactly one send — an error event listing the missing or invalid
field names, comma-joined — and leaves the server state unchanged. -/
theorem claim_C7 (st : State) (c : ConnId) (m : Msg) (now : Int) (hd : Handler)
    (hmiss : missingOfPairs (requiredPairs hd m) ≠ []) :
    runHandler hd st c m now =
      (st, send1 st c (Event.error ((("Missing or invalid fields: "))
        ++ String.intercalate ((", ")) (missingOfPairs (requiredPairs hd m))))) :=
  runHandler_invalid hd st c m now hmiss

/-- C7 witness: a join with both required fields absent is answered by the
single error listing room and sender, with no state change. -/
theorem claim_C7_wit :
    missingOfPairs (requiredPairs Handler.join ({} : Msg)) ≠ [] ∧
      runHandler Handler.join initState 0 ({} : Msg) 0 =
        (initState, send1 initState 0 (Event.error ((("Missing or invalid fields: "))
          ++ String.intercalate ((", "))
            (missingOfPairs (requiredPairs Handler.join ({} : Msg)))))) :=
  ⟨by decide, claim_C7 initState 0 {} 0 Handler.join (by decide)⟩

end Chat2

namespace Chat2

theorem broadcast_eq_singleton_payload {st : State} {room : String}
    {payload : Event} {excl : Option ConnId} {c : ConnId} {e : Event}
    (h : broadcastToRoom st room payload excl = [(c, e)]) : e = payload := by
  have hm : (c, e) ∈ broadcastToRoom st room payload excl := by
    rw [h]
    exact List.mem_singleton.mpr rfl
  exact broadcast_payload hm

/-- C8: the outputs of leave, in order: (a) the typing broadcast, present
only when a typing entry existed and the erased set is non-empty (when it
empties, the entry is deleted with no broadcast); (b) the user_left
broadcast, which never targets the leaver; (c) the confirmation send to the
leaver; (d) the presence broadcast, empty whenever the room entry no longer
exists. -/
theorem claim_C8 (st : State) (c : ConnId) (room : String) :
    (leaveRoom st c room).2 =
      (match alookup st.typingUsers room with
       | none => []
       | some ts =>
         if eraseUser ts ((st.conns c).username) = [] then []
         else broadcastToRoom (leaveRoom st c room).1 room
           (Event.typing room (eraseUser ts ((st.conns c).username))) none)
      ++ broadcastToRoom (leaveRoom st c room).1 room
          (Event.user_left room ((st.conns c).username)) (some c)
      ++ send1 (leaveRoom st c room).1 c (Event.system ((("Left room: ")) ++ room))
      ++ broadcastPresence (leaveRoom st c room).1 room ∧
    (∀ p ∈ broadcastToRoom (leaveRoom st c room).1 room
        (Event.user_left room ((st.conns c).username)) (some c), p.1 ≠ c) ∧
    (alookup ((leaveRoom st c room).1).rooms room = none →
      broadcastPresence (leaveRoom st c room).1 room = []) := by
  refine ⟨leaveRoom_out_decomp st c room, broadcast_excl_ne _ _ _ _, ?_⟩
  intro hnone
  exact broadcastPresence_none _ _ hnone

/-- C8 witness: the output decomposition instantiated at the concrete state
where alice is typing in room r and then leaves it. -/
theorem claim_C8_wit :
    (leaveRoom stableSt 0 (("r"))).2 =
      (match alookup stableSt.typingUsers (("r")) with
       | none => []
       | some ts =>
         if eraseUser ts ((stableSt.conns 0).username) = [] then []
         else broadcastToRoom (leaveRoom stableSt 0 (("r"))).1 (("r"))
           (Event.typing (("r")) (eraseUser ts ((stableSt.conns 0).username))) none)
      ++ broadcastToRoom (leaveRoom stableSt 0 (("r"))).1 (("r"))
          (Event.user_left (("r")) ((stableSt.conns 0).username)) (some 0)
      ++ send1 (leaveRoom stableSt 0 (("r"))).1 0
          (Event.system ((("Left room: ")) ++ (("r"))))
      ++ broadcastPresence (leaveRoom stableSt 0 (("r"))).1 (("r")) ∧
    (∀ p ∈ broadcastToRoom (leaveRoom stableSt 0 (("r"))).1 (("r"))
        (Event.user_left (("r")) ((stableSt.conns 0).username)) (some 0), p.1 ≠ 0) ∧
    (alookup ((leaveRoom stableSt 0 (("r"))).1).rooms (("r")) = none →
      broadcastPresence (leaveRoom stableSt 0 (("r"))).1 (("r")) = []) :=
  claim_C8 stableSt 0 (("r"))

/-- C9 counterexample: connection 1 (display name alice, member only of room
x) sends a leave for room r, which it never joined, while connection 0
(also alice) is typing in r; the leave deletes alice from r's typing entry
and removes the entry — a typing-state change caused by a non-member
leave. -/
theorem claim_C9_cex :
    Reachable foreignLeaveSt ∧
      (1 ∉ roomMembers foreignLeaveSt (("r"))) ∧
      alookup foreignLeaveSt.typingUsers (("r")) = some [(("alice"))] ∧
      alookup ((route foreignLeaveSt 1 (leaveInb (("r"))) 4).1).typingUsers (("r"))
        = none := by
  refine ⟨Reachable.execOps initState Reachable.init _, ?_, ?_, ?_⟩ <;> decide

/-- C9 (amended): in a reachable state, a leave for a room the connection is
not a member of (including a room with no directory entry) never changes the
room directory or any connection's membership record; the whole state — the
typing tracker included — is unchanged provided the room's typing entry (if
any) is non-empty and unaffected by erasing the connection's display
identity, because the code unconditionally deletes `ws.username` from the
typing entry and drops an emptied entry, even for non-members; moreover a
second leave for the same room immediately after a first one never changes
the state, so double leave equals single leave. -/
theorem claim_C9 (st : State) (h : Reachable st) (c : ConnId) (room : String) :
    ((c ∉ roomMembers st room) →
      (leaveRoom st c room).1.rooms = st.rooms ∧
      (leaveRoom st c room).1.conns = st.conns ∧
      ((∀ ts, alookup st.typingUsers room = some ts →
          ts ≠ [] ∧ eraseUser ts ((st.conns c).username) = ts) →
        (leaveRoom st c room).1 = st)) ∧
    (leaveRoom (leaveRoom st c room).1 c room).1 = (leaveRoom st c room).1 := by
  obtain ⟨h1, h2, h3, h4, h5, h6⟩ := Reachable.wf h
  constructor
  · intro hnm
    have hcr : room ∉ (st.conns c).crooms := fun hcr => hnm ((h6 c room).2 hcr)
    have hmem : ∀ mem, alookup st.rooms room = some mem → mem ≠ [] ∧ c ∉ mem := by
      intro mem hm
      refine ⟨(h3 room mem hm).1, ?_⟩
      intro hcmem
      refine hnm ?_
      have hrm : roomMembers st room = mem := by
        simp [roomMembers, hm]
      rw [hrm]
      exact hcmem
    refine ⟨?_, ?_, ?_⟩
    · rw [leaveRoom_fst_rooms, leaveDirSt_rooms]
      cases hr0 : alookup st.rooms room with
      | none => rfl
      | some mem =>
        dsimp only
        obtain ⟨hne, hno⟩ := hmem mem hr0
        rw [List.erase_of_not_mem hno, if_neg hne]
        exact aset_self h1 hr0
    · rw [leaveRoom_fst_conns]
      funext cc
      by_cases hc : cc = c
      · subst hc
        rw [leaveDirSt_conns_self, List.erase_of_not_mem hcr]
      · rw [leaveDirSt_conns_ne _ _ _ _ hc]
    · intro hts
      exact leaveRoom_noop st c room h1 h2 hmem hcr hts
  · have hwf1 : WF (leaveRoom st c room).1 :=
      WF_leaveRoom st c room ⟨h1, h2, h3, h4, h5, h6⟩
    obtain ⟨g1, g2, g3, g4, g5, g6⟩ := hwf1
    refine leaveRoom_noop _ c room g1 g2 ?_ ?_ ?_
    · intro mem hm
      refine ⟨(g3 room mem hm).1, ?_⟩
      intro hcm
      have hmem1 : c ∈ roomMembers (leaveRoom st c room).1 room := by
        have hrm : roomMembers (leaveRoom st c room).1 room = mem := by
          simp [roomMembers, hm]
        rw [hrm]
        exact hcm
      have hrwm : roomMembers (leaveRoom st c room).1 room =
          roomMembers (leaveDirSt st c room) room := by
        simp only [roomMembers, leaveRoom_fst_rooms]
      rw [hrwm, mem_roomMembers_leaveDirSt st c room h3 c room] at hmem1
      exact hmem1.2 ⟨rfl, rfl⟩
    · have hcr : ((leaveRoom st c room).1.conns c).crooms =
          ((st.conns c).crooms).erase room := by
        rw [leaveRoom_fst_conns]
        exact leaveDirSt_conns_crooms_self st c room
      rw [hcr]
      exact (h5 c).not_mem_erase
    · intro ts hm
      rw [leaveRoom_fst_typingUsers] at hm
      cases ht0 : alookup st.typingUsers room with
      | none =>
        rw [ht0] at hm
        dsimp only at hm
        rw [ht0] at hm
        cases hm
      | some ts0 =>
        rw [ht0] at hm
        dsimp only at hm
        by_cases he : eraseUser ts0 ((st.conns c).username) = []
        · rw [if_pos he, alookup_adel_self] at hm
          cases hm
        · rw [if_neg he, alookup_aset_self] at hm
          cases hm
          refine ⟨he, ?_⟩
          rw [leaveRoom_conns_username]
          cases hu : (st.conns c).username with
          | none => rfl
          | some un =>
            show (ts0.erase un).erase un = ts0.erase un
            apply List.erase_of_not_mem
            exact (h4 room ts0 ht0).not_mem_erase

/-- C9 witness: at the initial state, a leave for the absent room r keeps
the directory, the connection records and in fact the whole state unchanged,
and a double leave equals a single leave. -/
theorem claim_C9_wit :
    (0 ∉ roomMembers initState (("r"))) ∧
      (leaveRoom initState 0 (("r"))).1.rooms = initState.rooms ∧
      (leaveRoom initState 0 (("r"))).1.conns = initState.conns ∧
      (leaveRoom initState 0 (("r"))).1 = initState ∧
      (leaveRoom (leaveRoom initState 0 (("r"))).1 0 (("r"))).1 =
        (leaveRoom initState 0 (("r"))).1 := by
  have h := claim_C9 initState Reachable.init 0 (("r"))
  have hparts := h.1 (by decide)
  exact ⟨by decide, hparts.1, hparts.2.1,
    hparts.2.2 (fun ts hts => nomatch hts), h.2⟩

/-- C10: for an open connection, a route step produces exactly the single
Invalid JSON error reply with no state change precisely when the decoded
value is falsy — a parse failure (which yields null), or one of the JSON
literals null, false, 0, the empty string; a truthy decode never produces
that exact outcome. -/
theorem claim_C10 (st : State) (c : ConnId) (inb : Inbound) (now : Int)
    (hopen : (st.conns c).isOpen = true) :
    route st c inb now = (st, [(c, Event.error (("Invalid JSON")))]) ↔
      decodedFalsy inb = true := by
  constructor
  · intro he
    cases inb with
    | malformed => rfl
    | prim v =>
      by_cases htr : v.truthy = true
      · exfalso
        have hroute : route st c (Inbound.prim v) now = routeData st c {} now := by
          unfold route
          dsimp only
          rw [if_pos htr]
        rw [hroute] at he
        have hrd : routeData st c ({} : Msg) now =
            (st, send1 st c (Event.error
              ((("Unknown message type: ")) ++ (("undefined"))))) := rfl
        rw [hrd] at he
        have hsnd := congrArg Prod.snd he
        dsimp only at hsnd
        unfold send1 at hsnd
        rw [if_pos hopen] at hsnd
        injection hsnd with hhd htl
        injection hhd with hc1 hev
        exact absurd hev (by decide)
      · rw [show decodedFalsy (Inbound.prim v) = !v.truthy from rfl,
          Bool.not_eq_true']
        exact Bool.eq_false_iff.mpr htr
    | obj m =>
      exfalso
      unfold route at he
      dsimp only at he
      unfold routeData at he
      cases hl : lookupHandler (propKey m.type) with
      | inherited =>
        rw [hl] at he
        dsimp only at he
        have hsnd := congrArg Prod.snd he
        dsimp only at hsnd
        exact List.noConfusion hsnd
      | undef =>
        rw [hl] at he
        dsimp only at he
        have hsnd := congrArg Prod.snd he
        dsimp only at hsnd
        unfold send1 at hsnd
        rw [if_pos hopen] at hsnd
        injection hsnd with hhd htl
        injection hhd with hc1 hev
        injection hev with hstr
        exact unknown_ne_invalid _ hstr
      | handler hd =>
        rw [hl] at he
        dsimp only at he
        by_cases hmiss : missingOfPairs (requiredPairs hd m) = []
        · cases hd with
          | join =>
            have he' : handleJoin st c m now =
                (st, [(c, Event.error (("Invalid JSON")))]) := he
            have hsys := join_sys_mem st c m now hmiss hopen
            have hsnd := congrArg Prod.snd he'
            dsimp only at hsnd
            rw [hsnd] at hsys
            have hpair := List.mem_singleton.mp hsys
            injection hpair with hc1 hev
            exact Event.noConfusion hev
          | leave =>
            have he' : handleLeave st c m now =
                (st, [(c, Event.error (("Invalid JSON")))]) := he
            have hlv : handleLeave st c m now = leaveRoom st c (strOf m.room) := by
              unfold handleLeave requireFields
              rw [if_pos hmiss]
            rw [hlv] at he'
            have hsys := leave_sys_mem st c (strOf m.room) hopen
            have hsnd := congrArg Prod.snd he'
            dsimp only at hsnd
            rw [hsnd] at hsys
            have hpair := List.mem_singleton.mp hsys
            injection hpair with hc1 hev
            exact Event.noConfusion hev
          | message =>
            have he' : handleMessage st c m now =
                (st, [(c, Event.error (("Invalid JSON")))]) := he
            unfold handleMessage requireFields at he'
            rw [if_pos hmiss] at he'
            dsimp only at he'
            by_cases hmem : strOf m.room ∈ (st.conns c).crooms
            · rw [if_pos hmem] at he'
              have hsnd := congrArg Prod.snd he'
              dsimp only at hsnd
              have := broadcast_eq_singleton_payload hsnd
              exact Event.noConfusion this
            · rw [if_neg hmem] at he'
              have hsnd := congrArg Prod.snd he'
              dsimp only at hsnd
              exact List.noConfusion hsnd
          | reaction =>
            have he' : handleReaction st c m now =
                (st, [(c, Event.error (("Invalid JSON")))]) := he
            unfold handleReaction requireFields at he'
            rw [if_pos hmiss] at he'
            dsimp only at he'
            by_cases hmem : strOf m.room ∈ (st.conns c).crooms
            · rw [if_pos hmem] at he'
              have hsnd := congrArg Prod.snd he'
              dsimp only at hsnd
              have := broadcast_eq_singleton_payload hsnd
              exact Event.noConfusion this
            · rw [if_neg hmem] at he'
              have hsnd := congrArg Prod.snd he'
              dsimp only at hsnd
              exact List.noConfusion hsnd
          | presence_request =>
            have he' : handlePresenceRequest st c m now =
                (st, [(c, Event.error (("Invalid JSON")))]) := he
            unfold handlePresenceRequest requireFields at he'
            rw [if_pos hmiss] at he'
            dsimp only at he'
            by_cases hmem : strOf m.room ∈ (st.conns c).crooms
            · rw [if_pos hmem] at he'
              have hsnd := congrArg Prod.snd he'
              dsimp only at hsnd
              unfold broadcastPresence at hsnd
              cases hrr : alookup st.rooms (strOf m.room) with
              | none =>
                rw [hrr] at hsnd
                exact List.noConfusion hsnd
              | some mem =>
                rw [hrr] at hsnd
                dsimp only at hsnd
                have := broadcast_eq_singleton_payload hsnd
                exact Event.noConfusion this
            · rw [if_neg hmem] at he'
              have hsnd := congrArg Prod.snd he'
              dsimp only at hsnd
              exact List.noConfusion hsnd
          | typing =>
            have he' : handleTyping st c m now =
                (st, [(c, Event.error (("Invalid JSON")))]) := he
            unfold handleTyping requireFields at he'
            rw [if_pos hmiss] at he'
            dsimp only at he'
            cases hu : (st.conns c).username with
            | none =>
              rw [hu] at he'
              dsimp only at he'
              have hsnd := congrArg Prod.snd he'
              dsimp only at hsnd
              exact List.noConfusion hsnd
            | some user =>
              rw [hu] at he'
              dsimp only at he'
              by_cases hue : user = ("")
              · rw [if_pos hue] at he'
                have hsnd := congrArg Prod.snd he'
                dsimp only at hsnd
                exact List.noConfusion hsnd
              · rw [if_neg hue] at he'
                by_cases hmem : strOf m.room ∈ (st.conns c).crooms
                · rw [if_pos hmem] at he'
                  have hsnd := congrArg Prod.snd he'
                  dsimp only at hsnd
                  have := broadcast_eq_singleton_payload hsnd
                  exact Event.noConfusion this
                · rw [if_neg hmem] at he'
                  have hsnd := congrArg Prod.snd he'
                  dsimp only at hsnd
                  exact List.noConfusion hsnd
        · have hrun := runHandler_invalid hd st c m now hmiss
          rw [hrun] at he
          have hsnd := congrArg Prod.snd he
          dsimp only at hsnd
          unfold send1 at hsnd
          rw [if_pos hopen] at hsnd
          injection hsnd with hhd htl
          injection hhd with hc1 hev
          injection hev with hstr
          exact missing_ne_invalid _ hstr
  · intro hf
    cases inb with
    | malformed =>
      unfold route send1
      rw [if_pos hopen]
    | prim v =>
      have hvf : v.truthy = false := by
        have hb : (!v.truthy) = true := hf
        simpa using hb
      simp [route, send1, hvf, hopen]
    | obj m => exact absurd hf (by simp [decodedFalsy])

/-- C10 witness: a malformed frame from the open connection 0 at the initial
state draws exactly the Invalid JSON reply. -/
theorem claim_C10_wit :
    (initState.conns 0).isOpen = true ∧
      (route initState 0 Inbound.malformed 7 =
          (initState, [(0, Event.error (("Invalid JSON")))]) ↔
        decodedFalsy Inbound.malformed = true) :=
  ⟨by decide, claim_C10 initState 0 Inbound.malformed 7 (by decide)⟩

end Chat2
